import Mathlib

/-!
# In-place 3x3 convolution sweep (`lab3_optimized.c`)

A shallow embedding of `alloc_matrix`, `fill` and `compute`.

* The grid `double **arr` is a list of rows, each a list of cells. Every
  indexing operation of the C code is an `Option`-returning read or write,
  so an out-of-bounds access makes the whole run return `none`.
* The code is embedded once, over any arithmetic `Arith α` giving the
  conversion of an `int`, the product, the sum and the quotient of two cell
  values. Two arithmetics are used:
  - `F64`, IEEE-754 binary64 with round-to-nearest-even, signed zeros,
    infinities and NaN: the arithmetic of `double`, in which every product,
    sum and quotient of the source is rounded on its own (no fused
    multiply-add, no extended precision);
  - `ℚ`, exact arithmetic, for the statements made about exact values.
  A theorem stated for every `Arith α` holds for both.
* The constants `XDIM` and `YDIM` are parameters.
* The `for` loops are `forRange body count start`, which runs `body` at
  `start, start + 1, ..., start + count - 1`.
* `rand()` is an arbitrary stream `Nat → Nat`; the state of `fill` carries
  the number of calls made so far.
* `computeTicks` is `compute` with ghost counters of the executions of the
  two loop bodies; erasing the counters gives `compute` (`computeTicks_eq`).
-/

namespace Conv

/-! ## Arithmetic of cell values -/

/-- The operations the code performs on cell values: conversion of an `int`,
product, sum and quotient. -/
class Arith (α : Type) where
  /-- Conversion `(double) z` of an integer. -/
  ofInt : ℤ → α
  /-- Product `a * b`. -/
  mul : α → α → α
  /-- Sum `a + b`. -/
  add : α → α → α
  /-- Quotient `a / b`. -/
  div : α → α → α

/-- Exact arithmetic on the rationals. -/
instance exactArith : Arith ℚ where
  ofInt z := (z : ℚ)
  mul a b := a * b
  add a b := a + b
  div a b := a / b

/-! ## IEEE-754 binary64 -/

/-- A `double`: the finite value `(-1)^neg * m * 2^e`, an infinity, or NaN.
The operations below return finite values in the form of the binary64
encoding: `2^52 ≤ m < 2^53` with `-1074 ≤ e ≤ 971` (normal), `0 < m < 2^52`
with `e = -1074` (subnormal), or `m = 0` with `e = 0` (zero). -/
inductive F64 where
  | fin (neg : Bool) (m : Nat) (e : Int)
  | inf (neg : Bool)
  | nan
  deriving DecidableEq, Repr

namespace F64

/-- The number `floor (log2 n)` for `0 < n`, computed with at most `fuel`
halvings. -/
def log2Fuel : Nat → Nat → Nat
  | 0, _ => 0
  | fuel + 1, n => if n < 2 then 0 else log2Fuel fuel (n / 2) + 1

/-- The number `floor (log2 n)`, for `0 < n`. -/
def log2 (n : Nat) : Nat := log2Fuel n n

/-- The integer `floor (log2 (n / d))`, for positive `n` and `d`. -/
def ilog2 (n d : Nat) : Int :=
  if d * 2 ^ (log2 n - log2 d) ≤ n * 2 ^ (log2 d - log2 n) then
    (log2 n : Int) - log2 d
  else (log2 n : Int) - log2 d - 1

/-- The double nearest to `(-1)^neg * (n / d) * 2^e`, ties to the even
mantissa: the mantissa is `n / d * 2^(e - q)` rounded to an integer, where the
exponent `q` leaves 53 bits and is at least `-1074`; a value of `2^1024` or
more overflows to an infinity. -/
def round (neg : Bool) (n d : Nat) (e : Int) : F64 :=
  if n = 0 then fin neg 0 0
  else
    let q : Int := max (ilog2 n d + e - 52) (-1074)
    let num := n * 2 ^ (e - q).toNat
    let den := d * 2 ^ (q - e).toNat
    let m0 := num / den
    let r := num % den
    let m := if 2 * r < den then m0 else if 2 * r = den then m0 + m0 % 2 else m0 + 1
    if m = 2 ^ 53 then (if 971 < q + 1 then inf neg else fin neg (2 ^ 52) (q + 1))
    else if 971 < q then inf neg
    else if m = 0 then fin neg 0 0
    else fin neg m q

/-- Conversion `(double) z`. -/
def ofInt (z : Int) : F64 := round (decide (z < 0)) z.natAbs 1 0

/-- Product of two doubles. -/
def mul : F64 → F64 → F64
  | nan, _ => nan
  | _, nan => nan
  | inf s, inf t => inf (xor s t)
  | inf s, fin t m _ => if m = 0 then nan else inf (xor s t)
  | fin s m _, inf t => if m = 0 then nan else inf (xor s t)
  | fin s m e, fin t m' e' => round (xor s t) (m * m') 1 (e + e')

/-- The integer `(-1)^s * m`. -/
def signed (s : Bool) (m : Nat) : Int := if s then -(m : Int) else m

/-- Sum of two doubles. A zero added to a non-zero value leaves it as it is;
an exact sum of zero is `+0`, except `(-0) + (-0) = -0`. -/
def add : F64 → F64 → F64
  | nan, _ => nan
  | _, nan => nan
  | inf s, inf t => if s = t then inf s else nan
  | inf s, fin _ _ _ => inf s
  | fin _ _ _, inf t => inf t
  | fin s m e, fin t m' e' =>
    if m = 0 then (if m' = 0 then fin (s && t) 0 0 else fin t m' e')
    else if m' = 0 then fin s m e
    else
      let q := min e e'
      let c := signed s (m * 2 ^ (e - q).toNat) + signed t (m' * 2 ^ (e' - q).toNat)
      if c = 0 then fin false 0 0 else round (decide (c < 0)) c.natAbs 1 q

/-- Quotient of two doubles. -/
def div : F64 → F64 → F64
  | nan, _ => nan
  | _, nan => nan
  | inf _, inf _ => nan
  | inf s, fin t _ _ => inf (xor s t)
  | fin s _ _, inf t => fin (xor s t) 0 0
  | fin s m e, fin t m' e' =>
    if m' = 0 then (if m = 0 then nan else inf (xor s t))
    else round (xor s t) m m' (e - e')

/-- The exact value of a finite double. -/
def toRat : F64 → Option ℚ
  | fin s m e => some ((if s then -1 else 1) * (m : ℚ) * (2 : ℚ) ^ e)
  | inf _ => none
  | nan => none

/-- The double is finite: neither an infinity nor NaN. -/
def isFinite : F64 → Bool
  | fin _ _ _ => true
  | inf _ => false
  | nan => false

/-- The double is a zero, `+0` or `-0`. -/
def isZero : F64 → Bool
  | fin _ m _ => decide (m = 0)
  | inf _ => false
  | nan => false

/-- Two doubles are the same, or both are zeros (of whatever sign). -/
def SameUpToZero (a b : F64) : Prop := a = b ∨ (a.isZero = true ∧ b.isZero = true)

end F64

/-- IEEE-754 binary64 arithmetic, the arithmetic of `double`. -/
instance ieeeArith : Arith F64 where
  ofInt := F64.ofInt
  mul := F64.mul
  add := F64.add
  div := F64.div

/-- Integer literals as doubles. -/
instance (n : Nat) : OfNat F64 n := ⟨F64.ofInt n⟩

/-! ## Data model -/

/-- The grid `double **arr`: rows of cells, over the cell type `α`. -/
abbrev GridOf (α : Type) := List (List α)

/-- A grid of exact values. -/
abbrev Grid := GridOf ℚ

/-- The kernel `int kern[3][3]`. -/
abbrev Kernel := Fin 3 → Fin 3 → ℤ

/-- Checked read `arr[i][j]`. -/
def rd {α : Type} (arr : GridOf α) (i j : Nat) : Option α :=
  match arr[i]? with
  | none => none
  | some row => row[j]?

/-- Checked write `arr[i][j] = v`. -/
def wr {α : Type} (arr : GridOf α) (i j : Nat) (v : α) : Option (GridOf α) :=
  match arr[i]? with
  | none => none
  | some row => if j < row.length then some (arr.set i (row.set j v)) else none

/-- The value of cell `(i, j)`, zero when the cell does not exist. -/
def val {α : Type} [Arith α] (arr : GridOf α) (i j : Nat) : α :=
  (rd arr i j).getD (Arith.ofInt 0)

/-- The grid has `R` rows of exactly `C` cells each. -/
def HasDims {α : Type} (R C : Nat) (arr : GridOf α) : Prop :=
  arr.length = R ∧ ∀ row ∈ arr, row.length = C

instance {α : Type} (R C : Nat) (arr : GridOf α) : Decidable (HasDims R C arr) := by
  unfold HasDims; infer_instance

/-- The loop `for (i = start; i < start + count; i++) s = body i s`; a failing
iteration makes the loop fail. `for (i = 1; i < N - 1; i++)` is
`forRange body (N - 1 - 1) 1`: with truncated subtraction the count is `0`
when `N ≤ 2`, as in C where the condition `1 < N - 1` is then false at once. -/
def forRange {σ : Type} (body : Nat → σ → Option σ) : Nat → Nat → σ → Option σ
  | 0, _, s => some s
  | n + 1, i, s =>
    match body i s with
    | none => none
    | some s' => forRange body n (i + 1) s'

/-! ## `alloc_matrix` and `fill` -/

/-- `alloc_matrix`: `XDIM` rows, each `calloc`ed with `YDIM` zero cells. -/
def alloc_matrix {α : Type} [Arith α] (XDIM YDIM : Nat) : GridOf α :=
  List.replicate XDIM (List.replicate YDIM (Arith.ofInt 0))

/-- One iteration of the inner loop of `fill`:
`arr[i][j] = (double)(rand() % 100)`. The state is the grid and the number of
calls of `rand()` made so far. -/
def fillCell {α : Type} [Arith α] (rnd : Nat → Nat) (i j : Nat) (s : GridOf α × Nat) :
    Option (GridOf α × Nat) :=
  match wr s.1 i j (Arith.ofInt ((rnd s.2 % 100 : Nat) : ℤ)) with
  | none => none
  | some arr => some (arr, s.2 + 1)

/-- `fill`: both loops run from `0`, over all `XDIM * YDIM` cells. -/
def fill {α : Type} [Arith α] (XDIM YDIM : Nat) (arr : GridOf α) (rnd : Nat → Nat) :
    Option (GridOf α) :=
  match forRange (fun i s => forRange (fillCell rnd i) YDIM 0 s) XDIM 0 (arr, 0) with
  | none => none
  | some s => some s.1

/-! ## `compute` -/

/-- `const double factor = 1.0 / 250`. -/
def factor {α : Type} [Arith α] : α := Arith.div (Arith.ofInt 1) (Arith.ofInt 250)

/-- One entry `kern[r][c] * factor` of the table: the `int` is converted and
multiplied by `factor`. -/
def weight {α : Type} [Arith α] (z : ℤ) : α := Arith.mul (Arith.ofInt z) factor

/-- The table `kern_factor[9]`, in the order of the initialiser. -/
def kern_factor {α : Type} [Arith α] (kern : Kernel) : List α :=
  [ weight (kern 0 0), weight (kern 1 0), weight (kern 2 0),
    weight (kern 0 1), weight (kern 1 1), weight (kern 2 1),
    weight (kern 0 2), weight (kern 1 2), weight (kern 2 2) ]

/-- One product `kern_factor[n] * arr[i][j]`. -/
def mulAt {α : Type} [Arith α] (kf : List α) (n : Nat) (arr : GridOf α) (i j : Nat) :
    Option α :=
  match kf[n]?, rd arr i j with
  | some w, some x => some (Arith.mul w x)
  | _, _ => none

/-- Sum of two checked values. -/
def addO {α : Type} [Arith α] (a b : Option α) : Option α :=
  match a, b with
  | some x, some y => some (Arith.add x y)
  | _, _ => none

/-- The right-hand side of the assignment in the inner loop, summed from left
to right and ending with `+ 9`. `prev_row`, `curr_row` and `next_row` alias
rows `i - 1`, `i`, `i + 1` of the grid, so they are read from the grid as it
stands. -/
def cellValue {α : Type} [Arith α] (kf : List α) (arr : GridOf α) (i j : Nat) : Option α :=
  addO (addO (addO (addO (addO (addO (addO (addO (addO
    (mulAt kf 0 arr (i - 1) (j - 1))
    (mulAt kf 1 arr i (j - 1)))
    (mulAt kf 2 arr (i + 1) (j - 1)))
    (mulAt kf 3 arr (i - 1) j))
    (mulAt kf 4 arr i j))
    (mulAt kf 5 arr (i + 1) j))
    (mulAt kf 6 arr (i - 1) (j + 1)))
    (mulAt kf 7 arr i (j + 1)))
    (mulAt kf 8 arr (i + 1) (j + 1)))
    (some (Arith.ofInt 9))

/-- One iteration of the inner loop: `arr[i][j] = ...`. -/
def cellStep {α : Type} [Arith α] (kf : List α) (i j : Nat) (arr : GridOf α) :
    Option (GridOf α) :=
  match cellValue kf arr i j with
  | none => none
  | some v => wr arr i j v

/-- One iteration of the outer loop: the three row pointers are loaded, then
`for (j = 1; j < YDIM - 1; j++)` sweeps the row in place. -/
def rowStep {α : Type} [Arith α] (kf : List α) (YDIM : Nat) (i : Nat) (arr : GridOf α) :
    Option (GridOf α) :=
  match arr[i - 1]?, arr[i]?, arr[i + 1]? with
  | some _, some _, some _ => forRange (cellStep kf i) (YDIM - 1 - 1) 1 arr
  | _, _, _ => none

/-- `compute`: `for (i = 1; i < XDIM - 1; i++)` over the rows. -/
def compute {α : Type} [Arith α] (XDIM YDIM : Nat) (arr : GridOf α) (kern : Kernel) :
    Option (GridOf α) :=
  forRange (rowStep (kern_factor kern) YDIM) (XDIM - 1 - 1) 1 arr

/-- The kernel of `main`. -/
def mainKern : Kernel := ![![0, -1, 0], ![-1, 5, -1], ![0, -1, 0]]

/-! ## Reference definitions the sweep is compared with -/

/-- A double-buffered stencil in exact arithmetic: the value at `(i, j)`
computed from the original grid only. -/
def stencil (kern : Kernel) (arr : Grid) (i j : Nat) : ℚ :=
  (kern 0 0 * val arr (i - 1) (j - 1) + kern 0 1 * val arr (i - 1) j
    + kern 0 2 * val arr (i - 1) (j + 1)
    + kern 1 0 * val arr i (j - 1) + kern 1 1 * val arr i j + kern 1 2 * val arr i (j + 1)
    + kern 2 0 * val arr (i + 1) (j - 1) + kern 2 1 * val arr (i + 1) j
    + kern 2 2 * val arr (i + 1) (j + 1)) / 250 + 9

/-- Row `i` computed from a snapshot: every cell `(i, j)`, `j` taken from
`js` in that order, gets the value `cellValue` gives on the grid `arr` as it
stood before the row was started. -/
def rowSnapshot {α : Type} [Arith α] (kf : List α) (i : Nat) (arr : GridOf α) :
    List Nat → GridOf α → Option (GridOf α)
  | [], acc => some acc
  | j :: js, acc =>
    match cellValue kf arr i j with
    | none => none
    | some v =>
      match wr acc i j v with
      | none => none
      | some acc' => rowSnapshot kf i arr js acc'

/-- The exact value of the double in cell `(i, j)`; `0` when there is no such
cell or the double is not finite. -/
def valR (arr : GridOf F64) (i j : Nat) : ℚ :=
  ((rd arr i j).bind F64.toRat).getD 0

/-! ## Total functional model, used in the proofs -/

/-- A grid as a total function of its indices. -/
abbrev GridF (α : Type) := Nat → Nat → α

/-- The assigned expression, as a function of the nine values read: in the
order of the source, `prev_row`, `curr_row`, `next_row` at column `j - 1`,
then at `j`, then at `j + 1`; summed from left to right, then `+ 9`. -/
def stencil9 {α : Type} [Arith α] (kern : Kernel) (p0 c0 n0 p1 c1 n1 p2 c2 n2 : α) : α :=
  Arith.add (Arith.add (Arith.add (Arith.add (Arith.add (Arith.add (Arith.add (Arith.add
    (Arith.add
      (Arith.mul (weight (kern 0 0)) p0)
      (Arith.mul (weight (kern 1 0)) c0))
      (Arith.mul (weight (kern 2 0)) n0))
      (Arith.mul (weight (kern 0 1)) p1))
      (Arith.mul (weight (kern 1 1)) c1))
      (Arith.mul (weight (kern 2 1)) n1))
      (Arith.mul (weight (kern 0 2)) p2))
      (Arith.mul (weight (kern 1 2)) c2))
      (Arith.mul (weight (kern 2 2)) n2))
    (Arith.ofInt 9)

/-- The value assigned to cell `(i, j)`. -/
def cellValF {α : Type} [Arith α] (kern : Kernel) (f : GridF α) (i j : Nat) : α :=
  stencil9 kern (f (i - 1) (j - 1)) (f i (j - 1)) (f (i + 1) (j - 1))
    (f (i - 1) j) (f i j) (f (i + 1) j)
    (f (i - 1) (j + 1)) (f i (j + 1)) (f (i + 1) (j + 1))

/-- Update of one cell. -/
def updF {α : Type} (f : GridF α) (i j : Nat) (v : α) : GridF α :=
  fun a b => if a = i ∧ b = j then v else f a b

/-- Total counterpart of `cellStep`. -/
def cellStepF {α : Type} [Arith α] (kern : Kernel) (i j : Nat) (f : GridF α) : GridF α :=
  updF f i j (cellValF kern f i j)

/-- Total counterpart of `forRange`. -/
def iterF {σ : Type} (body : Nat → σ → σ) : Nat → Nat → σ → σ
  | 0, _, s => s
  | n + 1, i, s => iterF body n (i + 1) (body i s)

/-- Total counterpart of `rowStep`. -/
def rowStepF {α : Type} [Arith α] (kern : Kernel) (YDIM : Nat) (i : Nat) (f : GridF α) :
    GridF α :=
  iterF (cellStepF kern i) (YDIM - 1 - 1) 1 f

/-- Total counterpart of `compute`. -/
def computeF {α : Type} [Arith α] (XDIM YDIM : Nat) (f : GridF α) (kern : Kernel) : GridF α :=
  iterF (rowStepF kern YDIM) (XDIM - 1 - 1) 1 f

/-- The list grid `arr` has dimensions `R × C` and holds `f` on them. -/
def Models {α : Type} (R C : Nat) (arr : GridOf α) (f : GridF α) : Prop :=
  HasDims R C arr ∧ ∀ i j, i < R → j < C → rd arr i j = some (f i j)

/-! ## Ghost counters of loop-body executions -/

/-- A loop body with a ghost counter of its executions. -/
def tick {σ : Type} (body : Nat → σ → Option σ) (i : Nat) (s : σ × Nat) : Option (σ × Nat) :=
  match body i s.1 with
  | none => none
  | some s' => some (s', s.2 + 1)

/-- The body of the outer loop, `rowStep`, where the inner loop body carries a
ghost counter. -/
def rowStepTicks {α : Type} [Arith α] (kf : List α) (YDIM : Nat) (i : Nat)
    (s : GridOf α × Nat) : Option (GridOf α × Nat) :=
  match s.1[i - 1]?, s.1[i]?, s.1[i + 1]? with
  | some _, some _, some _ => forRange (tick (cellStep kf i)) (YDIM - 1 - 1) 1 s
  | _, _, _ => none

/-- `compute` with two ghost counters: it returns the grid, the number of
executions of the inner loop body and the number of executions of the outer
loop body. -/
def computeTicks {α : Type} [Arith α] (XDIM YDIM : Nat) (arr : GridOf α) (kern : Kernel) :
    Option ((GridOf α × Nat) × Nat) :=
  forRange (tick (rowStepTicks (kern_factor kern) YDIM)) (XDIM - 1 - 1) 1 ((arr, 0), 0)

/-! ## Invariant of `fill` -/

/-- The cells before `(i, j)` in row-major order hold integers in `[0, 100)`. -/
def FilledUpTo {α : Type} [Arith α] (R C : Nat) (i j : Nat) (s : GridOf α × Nat) : Prop :=
  HasDims R C s.1 ∧ ∀ a b, a < R → b < C → (a < i ∨ (a = i ∧ b < j)) →
    ∃ v : ℤ, 0 ≤ v ∧ v < 100 ∧ rd s.1 a b = some (Arith.ofInt v)

/-! ## Concrete inputs -/

/-- A 5x5 grid that is zero except for `250` at `(2, 2)`. -/
def spikeGrid : Grid :=
  [[0, 0, 0, 0, 0], [0, 0, 0, 0, 0], [0, 0, 250, 0, 0], [0, 0, 0, 0, 0], [0, 0, 0, 0, 0]]

/-- A kernel whose first row and entry `[1][0]` are zero. -/
def lowerKern : Kernel := ![![0, 0, 0], ![0, 5, -1], ![2, -1, 3]]

/-- A 3x3 grid with nine different values. -/
def grid3 : Grid := [[1, 2, 3], [4, 5, 6], [7, 8, 9]]

/-- A stream standing for the successive results of `rand()`. -/
def sampleRand : Nat → Nat := fun n => 123 * n + 45

/-- The all-zero kernel. -/
def zeroKern : Kernel := fun _ _ => 0

/-- A 4x3 grid. -/
def grid4 : Grid := [[1, 2, 3], [4, 5, 6], [7, 8, 9], [10, 11, 12]]

/-- The grid `grid4` with another last row. -/
def grid4b : Grid := [[1, 2, 3], [4, 5, 6], [7, 8, 9], [50, 60, 70]]

/-- A 3x2 grid. -/
def grid3x2 : Grid := [[1, 2], [3, 4], [5, 6]]

/-- A 3x3 grid of doubles with nine different values. -/
def dgrid3 : GridOf F64 := [[1, 2, 3], [4, 5, 6], [7, 8, 9]]

/-- A 4x3 grid of doubles. -/
def dgrid4 : GridOf F64 := [[1, 2, 3], [4, 5, 6], [7, 8, 9], [10, 11, 12]]

/-- The grid `dgrid4` with another last row. -/
def dgrid4b : GridOf F64 := [[1, 2, 3], [4, 5, 6], [7, 8, 9], [50, 60, 70]]

/-- A 3x4 grid of doubles that is `+0` except for `+inf` at `(0, 0)`. -/
def dinf3x4 : GridOf F64 := [[F64.inf false, 0, 0, 0], [0, 0, 0, 0], [0, 0, 0, 0]]

/-- The 5x5 grid of doubles that is `+0` except for `250` at `(2, 2)`. -/
def dspike : GridOf F64 :=
  [[0, 0, 0, 0, 0], [0, 0, 0, 0, 0], [0, 0, 250, 0, 0], [0, 0, 0, 0, 0], [0, 0, 0, 0, 0]]

/-- The double nearest to `10^308`. -/
def huge : F64 := F64.ofInt (10 ^ 308)

/-- The 5x5 grid of doubles that is `+0` except for `huge` at `(2, 2)`. -/
def dspikeHuge : GridOf F64 :=
  [[0, 0, 0, 0, 0], [0, 0, 0, 0, 0], [0, 0, huge, 0, 0], [0, 0, 0, 0, 0], [0, 0, 0, 0, 0]]

/-- A kernel with the single non-zero entry `k[1][1] = 1000`. -/
def centreKern : Kernel := ![![0, 0, 0], ![0, 1000, 0], ![0, 0, 0]]

/-- A 3x3 grid of doubles with `10^17` at two opposite corners and `1` at the
centre; all three values are doubles exactly. -/
def dcorners : GridOf F64 :=
  [[100000000000000000, 0, 0], [0, 1, 0], [0, 0, 100000000000000000]]

/-- A kernel with diagonal `250, 250, -250`. -/
def diagKern : Kernel := ![![250, 0, 0], ![0, 250, 0], ![0, 0, -250]]

/-- The 3x4 grid of doubles that is `+0` except for `huge` at `(1, 1)`. -/
def dhuge3x4 : GridOf F64 := [[0, 0, 0, 0], [0, huge, 0, 0], [0, 0, 0, 0]]

/-- A 3x3 grid of doubles with `10^17` at `(1, 1)` and `(2, 2)` and `1` at
`(1, 2)`. -/
def dabsorb : GridOf F64 :=
  [[0, 0, 0], [0, 100000000000000000, 1], [0, 0, 100000000000000000]]

/-- A kernel with `k[1][1] = k[1][2] = 250`, `k[2][2] = -250` and zero
elsewhere. -/
def absorbKern : Kernel := ![![0, 0, 0], ![0, 250, 250], ![0, 0, -250]]

/-- A 3x3 grid of doubles that is `+0` except for `+inf` at `(0, 0)`. -/
def dinf3 : GridOf F64 := [[F64.inf false, 0, 0], [0, 0, 0], [0, 0, 0]]

/-! ## Exact arithmetic unfolds to the field operations -/

@[simp] theorem exact_ofInt (z : ℤ) : (Arith.ofInt z : ℚ) = (z : ℚ) := rfl

@[simp] theorem exact_mul (a b : ℚ) : Arith.mul a b = a * b := rfl

@[simp] theorem exact_add (a b : ℚ) : Arith.add a b = a + b := rfl

@[simp] theorem exact_div (a b : ℚ) : Arith.div a b = a / b := rfl

theorem exact_factor : (factor : ℚ) = 1 / 250 := by
  simp [factor]

theorem exact_weight (z : ℤ) : (weight z : ℚ) = z / 250 := by
  simp [weight, factor]
  ring

/-! ## Checked reads and writes -/

theorem rd_eq_some_of_dims {α : Type} {R C : Nat} {arr : GridOf α} (h : HasDims R C arr)
    {i j : Nat} (hi : i < R) (hj : j < C) : ∃ v, rd arr i j = some v := by
  obtain ⟨hl, hrow⟩ := h
  have hi' : i < arr.length := by omega
  have hr : (arr[i]).length = C := hrow _ (List.getElem_mem _)
  have hj' : j < (arr[i]).length := by omega
  exact ⟨(arr[i])[j], by simp [rd, List.getElem?_eq_getElem hi', List.getElem?_eq_getElem hj']⟩

theorem rd_eq_none_of_dims {α : Type} {R C : Nat} {arr : GridOf α} (h : HasDims R C arr)
    {i j : Nat} (hij : R ≤ i ∨ C ≤ j) : rd arr i j = none := by
  obtain ⟨hl, hrow⟩ := h
  by_cases hi : i < arr.length
  · have hr : (arr[i]).length = C := hrow _ (List.getElem_mem _)
    have hj : C ≤ j := by omega
    simp only [rd, List.getElem?_eq_getElem hi]
    exact List.getElem?_eq_none (by omega)
  · simp [rd, List.getElem?_eq_none (Nat.le_of_not_lt hi)]

theorem wr_spec {α : Type} {R C : Nat} {arr : GridOf α} (h : HasDims R C arr) {i j : Nat}
    (hi : i < R) (hj : j < C) (v : α) :
    ∃ arr', wr arr i j v = some arr' ∧ HasDims R C arr' ∧
      ∀ a b, rd arr' a b = if a = i ∧ b = j then some v else rd arr a b := by
  obtain ⟨hl, hrow⟩ := h
  have hi' : i < arr.length := by omega
  have hr : (arr[i]).length = C := hrow _ (List.getElem_mem _)
  have hj' : j < (arr[i]).length := by omega
  refine ⟨arr.set i ((arr[i]).set j v), ?_, ⟨?_, ?_⟩, ?_⟩
  · simp [wr, List.getElem?_eq_getElem hi', hj']
  · simpa using hl
  · intro row hmem
    rcases List.mem_or_eq_of_mem_set hmem with h1 | h1
    · exact hrow _ h1
    · subst h1; simpa using hr
  · intro a b
    by_cases ha : a = i
    · subst ha
      by_cases hb : b = j
      · subst hb
        simp [rd, List.getElem?_set, hi', hj']
      · have hb' : ¬ (j = b) := fun e => hb e.symm
        simp [rd, List.getElem?_set, hi', hb, hb', List.getElem?_eq_getElem hi']
    · have ha' : ¬ (i = a) := fun e => ha e.symm
      simp [rd, List.getElem?_set, ha, ha']

/-! ## The checked run and the total model agree -/

theorem models_val {α : Type} [Arith α] {R C : Nat} {arr : GridOf α} (h : HasDims R C arr) :
    Models R C arr (val arr) := by
  refine ⟨h, fun i j hi hj => ?_⟩
  obtain ⟨v, hv⟩ := rd_eq_some_of_dims h hi hj
  simp [val, hv]

theorem val_eq_of_models {α : Type} [Arith α] {R C : Nat} {arr : GridOf α} {f : GridF α}
    (h : Models R C arr f) {i j : Nat} (hi : i < R) (hj : j < C) : val arr i j = f i j := by
  simp [val, h.2 i j hi hj]

theorem val_eq_zero_of_dims {α : Type} [Arith α] {R C : Nat} {arr : GridOf α}
    (h : HasDims R C arr) {i j : Nat} (hij : R ≤ i ∨ C ≤ j) :
    val arr i j = Arith.ofInt 0 := by
  simp [val, rd_eq_none_of_dims h hij]

theorem forRange_rel {σ τ : Type} (Rel : σ → τ → Prop) (body : Nat → σ → Option σ)
    (bodyF : Nat → τ → τ) (n : Nat) :
    ∀ (i0 : Nat),
      (∀ i, i0 ≤ i → i < i0 + n → ∀ s f, Rel s f → ∃ s', body i s = some s' ∧ Rel s' (bodyF i f)) →
      ∀ s f, Rel s f → ∃ s', forRange body n i0 s = some s' ∧ Rel s' (iterF bodyF n i0 f) := by
  induction n with
  | zero => intro i0 _ s f h; exact ⟨s, rfl, h⟩
  | succ n ih =>
    intro i0 hstep s f h
    obtain ⟨s1, hs1, hrel1⟩ := hstep i0 (Nat.le_refl _) (by omega) s f h
    obtain ⟨s2, hs2, hrel2⟩ :=
      ih (i0 + 1) (fun i h1 h2 => hstep i (by omega) (by omega)) s1 (bodyF i0 f) hrel1
    exact ⟨s2, by simp [forRange, hs1, hs2], hrel2⟩

theorem cellValue_models {α : Type} [Arith α] {R C : Nat} {arr : GridOf α} {f : GridF α}
    (h : Models R C arr f) (kern : Kernel) {i j : Nat} (hi : i + 1 < R) (hj : j + 1 < C) :
    cellValue (kern_factor kern) arr i j = some (cellValF kern f i j) := by
  obtain ⟨_, hrd⟩ := h
  simp [cellValue, mulAt, addO, kern_factor, cellValF, stencil9,
    hrd (i - 1) (j - 1) (by omega) (by omega), hrd i (j - 1) (by omega) (by omega),
    hrd (i + 1) (j - 1) (by omega) (by omega), hrd (i - 1) j (by omega) (by omega),
    hrd i j (by omega) (by omega), hrd (i + 1) j (by omega) (by omega),
    hrd (i - 1) (j + 1) (by omega) (by omega), hrd i (j + 1) (by omega) (by omega),
    hrd (i + 1) (j + 1) (by omega) (by omega)]

theorem wr_models {α : Type} {R C : Nat} {arr : GridOf α} {f : GridF α}
    (h : Models R C arr f) {i j : Nat} (hi : i < R) (hj : j < C) (v : α) :
    ∃ arr', wr arr i j v = some arr' ∧ Models R C arr' (updF f i j v) := by
  obtain ⟨arr', hw, hd, hrd⟩ := wr_spec h.1 hi hj v
  refine ⟨arr', hw, hd, fun a b ha hb => ?_⟩
  rw [hrd a b]
  by_cases hab : a = i ∧ b = j
  · simp [updF, hab]
  · simp [updF, hab, h.2 a b ha hb]

theorem cellStep_models {α : Type} [Arith α] {R C : Nat} {arr : GridOf α} {f : GridF α}
    (h : Models R C arr f) (kern : Kernel) {i j : Nat} (hi : i + 1 < R) (hj : j + 1 < C) :
    ∃ arr', cellStep (kern_factor kern) i j arr = some arr' ∧
      Models R C arr' (cellStepF kern i j f) := by
  obtain ⟨arr', hw, hm⟩ := wr_models h (i := i) (j := j) (by omega) (by omega) (cellValF kern f i j)
  exact ⟨arr', by simp [cellStep, cellValue_models h kern hi hj, hw], hm⟩

theorem rowStep_models {α : Type} [Arith α] {R C : Nat} {arr : GridOf α} {f : GridF α}
    (h : Models R C arr f) (kern : Kernel) {i : Nat} (hi : i + 1 < R) :
    ∃ arr', rowStep (kern_factor kern) C i arr = some arr' ∧
      Models R C arr' (rowStepF kern C i f) := by
  have hlen : arr.length = R := h.1.1
  have h0 : i - 1 < arr.length := by omega
  have h1 : i < arr.length := by omega
  have h2 : i + 1 < arr.length := by omega
  obtain ⟨arr', hrun, hm⟩ :=
    forRange_rel (Models R C) (cellStep (kern_factor kern) i) (cellStepF kern i) (C - 1 - 1) 1
      (fun j _ hj2 s g hs => cellStep_models hs kern hi (by omega)) arr f h
  refine ⟨arr', ?_, hm⟩
  simp only [rowStep, List.getElem?_eq_getElem h0, List.getElem?_eq_getElem h1,
    List.getElem?_eq_getElem h2]
  exact hrun

theorem compute_models {α : Type} [Arith α] {R C : Nat} {arr : GridOf α} {f : GridF α}
    (h : Models R C arr f) (kern : Kernel) :
    ∃ arr', compute R C arr kern = some arr' ∧ Models R C arr' (computeF R C f kern) :=
  forRange_rel (Models R C) (rowStep (kern_factor kern) C) (rowStepF kern C) (R - 1 - 1) 1
    (fun _ _ hi2 _ _ hs => rowStep_models hs kern (by omega)) arr f h

/-! ## The sweep on the total model -/

theorem iterF_cell_frame {α : Type} [Arith α] (kern : Kernel) (i : Nat) (n : Nat) :
    ∀ (j0 : Nat) (s : GridF α) (a b : Nat), ¬ (a = i ∧ j0 ≤ b ∧ b < j0 + n) →
      iterF (cellStepF kern i) n j0 s a b = s a b := by
  induction n with
  | zero => intro j0 s a b _; rfl
  | succ n ih =>
    intro j0 s a b hab
    have h1 : ¬ (a = i ∧ j0 + 1 ≤ b ∧ b < j0 + 1 + n) := fun h => hab ⟨h.1, by omega, by omega⟩
    have h2 : ¬ (a = i ∧ b = j0) := fun h => hab ⟨h.1, by omega, by omega⟩
    simp only [iterF]
    rw [ih (j0 + 1) _ a b h1]
    simp [cellStepF, updF, h2]

theorem iterF_cell_value {α : Type} [Arith α] (kern : Kernel) (i : Nat) (hi : 1 ≤ i) (n : Nat) :
    ∀ (j0 : Nat) (s : GridF α), 1 ≤ j0 → ∀ j, j0 ≤ j → j < j0 + n →
      iterF (cellStepF kern i) n j0 s i j =
        stencil9 kern (s (i - 1) (j - 1)) (iterF (cellStepF kern i) n j0 s i (j - 1))
          (s (i + 1) (j - 1)) (s (i - 1) j) (s i j) (s (i + 1) j)
          (s (i - 1) (j + 1)) (s i (j + 1)) (s (i + 1) (j + 1)) := by
  induction n with
  | zero => intro j0 s _ j h1 h2; omega
  | succ n ih =>
    intro j0 s hj0 j h1 h2
    simp only [iterF]
    have hp : i - 1 ≠ i := by omega
    have hn : i + 1 ≠ i := by omega
    rcases Nat.eq_or_lt_of_le h1 with hjeq | hjlt
    · subst hjeq
      have hm : j0 - 1 ≠ j0 := by omega
      rw [iterF_cell_frame kern i n (j0 + 1) _ i j0 (by omega),
        iterF_cell_frame kern i n (j0 + 1) _ i (j0 - 1) (by omega)]
      simp [cellStepF, updF, cellValF, hm]
    · have hc : j ≠ j0 := by omega
      have hr : j + 1 ≠ j0 := by omega
      rw [ih (j0 + 1) _ (by omega) j (by omega) (by omega)]
      simp [cellStepF, updF, hp, hn, hc, hr]

theorem iterF_row_frame {α : Type} [Arith α] (kern : Kernel) (C : Nat) (n : Nat) :
    ∀ (i0 : Nat) (s : GridF α) (a b : Nat),
      ¬ (i0 ≤ a ∧ a < i0 + n ∧ 1 ≤ b ∧ b < 1 + (C - 1 - 1)) →
      iterF (rowStepF kern C) n i0 s a b = s a b := by
  induction n with
  | zero => intro i0 s a b _; rfl
  | succ n ih =>
    intro i0 s a b hab
    simp only [iterF]
    rw [ih (i0 + 1) _ a b (fun h => hab ⟨by omega, by omega, h.2.2.1, h.2.2.2⟩)]
    exact iterF_cell_frame kern i0 (C - 1 - 1) 1 s a b
      (fun h => hab ⟨by omega, by omega, h.2.1, h.2.2⟩)

theorem iterF_row_value {α : Type} [Arith α] (kern : Kernel) (C : Nat) (n : Nat) :
    ∀ (i0 : Nat) (s : GridF α), 1 ≤ i0 → ∀ i j, i0 ≤ i → i < i0 + n → 1 ≤ j →
      j < 1 + (C - 1 - 1) →
      iterF (rowStepF kern C) n i0 s i j =
        stencil9 kern (iterF (rowStepF kern C) n i0 s (i - 1) (j - 1))
          (iterF (rowStepF kern C) n i0 s i (j - 1)) (s (i + 1) (j - 1))
          (iterF (rowStepF kern C) n i0 s (i - 1) j) (s i j) (s (i + 1) j)
          (iterF (rowStepF kern C) n i0 s (i - 1) (j + 1)) (s i (j + 1))
          (s (i + 1) (j + 1)) := by
  induction n with
  | zero => intro i0 s _ i j h1 h2; omega
  | succ n ih =>
    intro i0 s hi0 i j h1 h2 hj1 hj2
    simp only [iterF]
    rcases Nat.eq_or_lt_of_le h1 with hieq | hilt
    · subst hieq
      have fr : ∀ a b, a ≤ i0 →
          iterF (rowStepF kern C) n (i0 + 1) (rowStepF kern C i0 s) a b
            = rowStepF kern C i0 s a b :=
        fun a b ha => iterF_row_frame kern C n (i0 + 1) _ a b (by omega)
      have fc : ∀ a b, a ≠ i0 → rowStepF kern C i0 s a b = s a b :=
        fun a b ha => iterF_cell_frame kern i0 (C - 1 - 1) 1 s a b (fun h => ha h.1)
      rw [fr i0 j (Nat.le_refl _), fr (i0 - 1) (j - 1) (by omega), fr i0 (j - 1) (Nat.le_refl _),
        fr (i0 - 1) j (by omega), fr (i0 - 1) (j + 1) (by omega),
        fc (i0 - 1) (j - 1) (by omega), fc (i0 - 1) j (by omega),
        fc (i0 - 1) (j + 1) (by omega)]
      exact iterF_cell_value kern i0 hi0 (C - 1 - 1) 1 s (Nat.le_refl _) j hj1 hj2
    · have fc : ∀ a b, a ≠ i0 → rowStepF kern C i0 s a b = s a b :=
        fun a b ha => iterF_cell_frame kern i0 (C - 1 - 1) 1 s a b (fun h => ha h.1)
      rw [ih (i0 + 1) _ (by omega) i j (by omega) (by omega) hj1 hj2,
        fc (i + 1) (j - 1) (by omega), fc i j (by omega), fc (i + 1) j (by omega),
        fc i (j + 1) (by omega), fc (i + 1) (j + 1) (by omega)]

/-- Cells outside the interior keep their value. -/
theorem computeF_frame {α : Type} [Arith α] (R C : Nat) (f : GridF α) (kern : Kernel)
    (a b : Nat) (h : ¬ (1 ≤ a ∧ a + 1 < R ∧ 1 ≤ b ∧ b + 1 < C)) :
    computeF R C f kern a b = f a b :=
  iterF_row_frame kern C (R - 1 - 1) 1 f a b
    (fun h' => h ⟨h'.1, by omega, h'.2.2.1, by omega⟩)

/-- The recurrence every interior cell of the result satisfies. -/
theorem computeF_value {α : Type} [Arith α] (R C : Nat) (f : GridF α) (kern : Kernel)
    (i j : Nat) (hi1 : 1 ≤ i) (hi2 : i + 1 < R) (hj1 : 1 ≤ j) (hj2 : j + 1 < C) :
    computeF R C f kern i j =
      stencil9 kern (computeF R C f kern (i - 1) (j - 1)) (computeF R C f kern i (j - 1))
        (f (i + 1) (j - 1)) (computeF R C f kern (i - 1) j) (f i j) (f (i + 1) j)
        (computeF R C f kern (i - 1) (j + 1)) (f i (j + 1)) (f (i + 1) (j + 1)) :=
  iterF_row_value kern C (R - 1 - 1) 1 f (Nat.le_refl _) i j hi1 (by omega) hj1 (by omega)

/-! ## What a run of `compute` leaves in the grid -/

theorem rd_eq_some_val {α : Type} [Arith α] {R C : Nat} {arr : GridOf α}
    (h : HasDims R C arr) {i j : Nat} (hi : i < R) (hj : j < C) :
    rd arr i j = some (val arr i j) := by
  obtain ⟨v, hv⟩ := rd_eq_some_of_dims h hi hj
  simp [val, hv]

theorem rd_eq_of_val_eq {α : Type} [Arith α] {R C : Nat} {g1 g2 : GridOf α}
    (h1 : HasDims R C g1) (h2 : HasDims R C g2)
    {a b : Nat} (h : val g1 a b = val g2 a b) : rd g1 a b = rd g2 a b := by
  by_cases hin : a < R ∧ b < C
  · rw [rd_eq_some_val h1 hin.1 hin.2, rd_eq_some_val h2 hin.1 hin.2, h]
  · have hout : R ≤ a ∨ C ≤ b := by omega
    rw [rd_eq_none_of_dims h1 hout, rd_eq_none_of_dims h2 hout]

/-- On a grid of `R` rows of `C` cells `compute` returns a grid of the same
dimensions, whose values are those of the total model. -/
theorem compute_run {α : Type} [Arith α] {R C : Nat} {arr : GridOf α} (h : HasDims R C arr)
    (kern : Kernel) :
    ∃ arr', compute R C arr kern = some arr' ∧ HasDims R C arr' ∧
      ∀ a b, val arr' a b = computeF R C (val arr) kern a b := by
  obtain ⟨arr', hrun, hm⟩ := compute_models (models_val h) kern
  refine ⟨arr', hrun, hm.1, fun a b => ?_⟩
  by_cases hab : a < R ∧ b < C
  · exact val_eq_of_models hm hab.1 hab.2
  · have hout : R ≤ a ∨ C ≤ b := by omega
    rw [val_eq_zero_of_dims hm.1 hout, computeF_frame R C _ kern a b (by omega),
      val_eq_zero_of_dims h hout]

/-- The result of `compute`, in any arithmetic: cells outside the interior
are as in the input, and every interior cell is the assigned expression of the
source on the already-updated row above and left neighbour and on the
original centre, right neighbour and row below. -/
theorem compute_spec {α : Type} [Arith α] {R C : Nat} {arr : GridOf α} (h : HasDims R C arr)
    (kern : Kernel) :
    ∃ arr', compute R C arr kern = some arr' ∧ HasDims R C arr' ∧
      (∀ a b, ¬ (1 ≤ a ∧ a + 1 < R ∧ 1 ≤ b ∧ b + 1 < C) → val arr' a b = val arr a b) ∧
      (∀ i j, 1 ≤ i → i + 1 < R → 1 ≤ j → j + 1 < C →
        val arr' i j =
          stencil9 kern (val arr' (i - 1) (j - 1)) (val arr' i (j - 1)) (val arr (i + 1) (j - 1))
            (val arr' (i - 1) j) (val arr i j) (val arr (i + 1) j)
            (val arr' (i - 1) (j + 1)) (val arr i (j + 1)) (val arr (i + 1) (j + 1))) := by
  obtain ⟨arr', hrun, hd, hval⟩ := compute_run h kern
  refine ⟨arr', hrun, hd, fun a b hab => ?_, fun i j hi1 hi2 hj1 hj2 => ?_⟩
  · rw [hval, computeF_frame R C _ kern a b hab]
  · simp only [hval]
    exact computeF_value R C _ kern i j hi1 hi2 hj1 hj2

/-- Cells outside the interior read the same before and after `compute`. -/
theorem compute_rd_frame {α : Type} [Arith α] {R C : Nat} {arr arr' : GridOf α}
    (h : HasDims R C arr) (h' : HasDims R C arr')
    (hfr : ∀ a b, ¬ (1 ≤ a ∧ a + 1 < R ∧ 1 ≤ b ∧ b + 1 < C) → val arr' a b = val arr a b)
    (a b : Nat) (hab : ¬ (1 ≤ a ∧ a + 1 < R ∧ 1 ≤ b ∧ b + 1 < C)) :
    rd arr' a b = rd arr a b := by
  by_cases hin : a < R ∧ b < C
  · rw [rd_eq_some_val h' hin.1 hin.2, rd_eq_some_val h hin.1 hin.2, hfr a b hab]
  · have hout : R ≤ a ∨ C ≤ b := by omega
    rw [rd_eq_none_of_dims h' hout, rd_eq_none_of_dims h hout]

/-- In exact arithmetic the assigned expression is the weighted sum divided by
250, plus 9. -/
theorem exact_stencil9 (k : Kernel) (p0 c0 n0 p1 c1 n1 p2 c2 n2 : ℚ) :
    stencil9 k p0 c0 n0 p1 c1 n1 p2 c2 n2
      = (k 0 0 * p0 + k 1 0 * c0 + k 2 0 * n0 + k 0 1 * p1 + k 1 1 * c1 + k 2 1 * n1
          + k 0 2 * p2 + k 1 2 * c2 + k 2 2 * n2) / 250 + 9 := by
  simp only [stencil9, exact_weight, exact_mul, exact_add, exact_ofInt]
  push_cast
  ring

/-- In exact arithmetic, when the kernel entries paired with already-updated
cells are zero, every interior cell of the result is the double-buffered
stencil of the input. -/
theorem compute_causal {R C : Nat} {arr : Grid} (h : HasDims R C arr) (kern : Kernel)
    (h00 : kern 0 0 = 0) (h01 : kern 0 1 = 0) (h02 : kern 0 2 = 0) (h10 : kern 1 0 = 0) :
    ∃ arr', compute R C arr kern = some arr' ∧ HasDims R C arr' ∧
      (∀ a b, ¬ (1 ≤ a ∧ a + 1 < R ∧ 1 ≤ b ∧ b + 1 < C) → val arr' a b = val arr a b) ∧
      (∀ i j, 1 ≤ i → i + 1 < R → 1 ≤ j → j + 1 < C → val arr' i j = stencil kern arr i j) := by
  obtain ⟨arr', hrun, hd, hfr, hv⟩ := compute_spec h kern
  refine ⟨arr', hrun, hd, hfr, fun i j hi1 hi2 hj1 hj2 => ?_⟩
  rw [hv i j hi1 hi2 hj1 hj2, exact_stencil9]
  simp only [stencil, h00, h01, h02, h10]
  push_cast
  ring

/-! ## Loop invariants -/

theorem forRange_inv {σ : Type} (P : Nat → σ → Prop) (body : Nat → σ → Option σ) (n : Nat) :
    ∀ (i0 : Nat),
      (∀ i, i0 ≤ i → i < i0 + n → ∀ s, P i s → ∃ s', body i s = some s' ∧ P (i + 1) s') →
      ∀ s, P i0 s → ∃ s', forRange body n i0 s = some s' ∧ P (i0 + n) s' := by
  induction n with
  | zero => intro i0 _ s h; exact ⟨s, rfl, h⟩
  | succ n ih =>
    intro i0 hstep s h
    obtain ⟨s1, hs1, hP1⟩ := hstep i0 (Nat.le_refl _) (by omega) s h
    obtain ⟨s2, hs2, hP2⟩ := ih (i0 + 1) (fun i h1 h2 => hstep i (by omega) (by omega)) s1 hP1
    refine ⟨s2, by simp [forRange, hs1, hs2], ?_⟩
    have he : i0 + (n + 1) = i0 + 1 + n := by omega
    rw [he]
    exact hP2

/-! ## The freshly allocated grid -/

theorem alloc_matrix_dims {α : Type} [Arith α] (R C : Nat) :
    HasDims R C (alloc_matrix R C : GridOf α) := by
  refine ⟨by simp [alloc_matrix], fun row hrow => ?_⟩
  have h := List.eq_of_mem_replicate hrow
  simp [h]

theorem val_alloc_matrix {α : Type} [Arith α] (R C a b : Nat) :
    val (alloc_matrix R C : GridOf α) a b = Arith.ofInt 0 := by
  unfold val rd alloc_matrix
  by_cases ha : a < R
  · by_cases hb : b < C
    · simp [List.getElem?_replicate, ha, hb]
    · simp [List.getElem?_replicate, ha, hb]
  · simp [List.getElem?_replicate, ha]

/-! ## Facts of double arithmetic -/

theorem F64.exists_fin_of_isFinite {x : F64} (h : x.isFinite = true) :
    ∃ s m e, x = F64.fin s m e := by
  cases x with
  | fin s m e => exact ⟨s, m, e, rfl⟩
  | inf s => simp [F64.isFinite] at h
  | nan => simp [F64.isFinite] at h

/-- The double `factor = 1.0 / 250` is `4611686018427388 * 2^-60`, that is
`1152921504606847 / 2^58`, not `1/250`. -/
theorem F64.factor_eq :
    (factor : F64) = F64.fin false 4611686018427388 (-60) ∧
    F64.toRat (F64.fin false 4611686018427388 (-60)) = some (1152921504606847 / 2 ^ 58) ∧
    (1152921504606847 / 2 ^ 58 : ℚ) ≠ 1 / 250 := by
  refine ⟨by decide!, ?_, by norm_num⟩
  simp [F64.toRat]
  norm_num

/-- The weight `0 * factor` is `+0`. -/
theorem F64.weight_zero : (weight 0 : F64) = F64.fin false 0 0 := by decide!

/-- The product of `+0` and a finite double is a zero. -/
theorem F64.zero_mul_fin (s : Bool) (m : Nat) (e : Int) :
    Arith.mul (F64.fin false 0 0) (F64.fin s m e) = F64.fin s 0 0 := by
  show F64.mul (F64.fin false 0 0) (F64.fin s m e) = F64.fin s 0 0
  simp [F64.mul, F64.round]

/-- The sum of two zeros is a zero. -/
theorem F64.zero_add_zero (s t : Bool) :
    Arith.add (F64.fin s 0 0) (F64.fin t 0 0) = F64.fin (s && t) 0 0 := by
  show F64.add (F64.fin s 0 0) (F64.fin t 0 0) = F64.fin (s && t) 0 0
  simp [F64.add]

/-- A zero plus `9.0` is `9.0`. -/
theorem F64.zero_add_nine (s : Bool) :
    Arith.add (F64.fin s 0 0) (Arith.ofInt 9) = (9 : F64) := by
  cases s <;> decide!

/-- With the all-zero kernel the assigned expression is `9.0` on finite
doubles. -/
theorem F64.stencil9_zeroKern {p0 c0 n0 p1 c1 n1 p2 c2 n2 : F64}
    (hp0 : p0.isFinite = true) (hc0 : c0.isFinite = true) (hn0 : n0.isFinite = true)
    (hp1 : p1.isFinite = true) (hc1 : c1.isFinite = true) (hn1 : n1.isFinite = true)
    (hp2 : p2.isFinite = true) (hc2 : c2.isFinite = true) (hn2 : n2.isFinite = true) :
    stencil9 zeroKern p0 c0 n0 p1 c1 n1 p2 c2 n2 = (9 : F64) := by
  obtain ⟨_, _, _, rfl⟩ := F64.exists_fin_of_isFinite hp0
  obtain ⟨_, _, _, rfl⟩ := F64.exists_fin_of_isFinite hc0
  obtain ⟨_, _, _, rfl⟩ := F64.exists_fin_of_isFinite hn0
  obtain ⟨_, _, _, rfl⟩ := F64.exists_fin_of_isFinite hp1
  obtain ⟨_, _, _, rfl⟩ := F64.exists_fin_of_isFinite hc1
  obtain ⟨_, _, _, rfl⟩ := F64.exists_fin_of_isFinite hn1
  obtain ⟨_, _, _, rfl⟩ := F64.exists_fin_of_isFinite hp2
  obtain ⟨_, _, _, rfl⟩ := F64.exists_fin_of_isFinite hc2
  obtain ⟨_, _, _, rfl⟩ := F64.exists_fin_of_isFinite hn2
  simp only [stencil9, zeroKern, F64.weight_zero, F64.zero_mul_fin, F64.zero_add_zero,
    F64.zero_add_nine]

theorem F64.nine_isFinite : (9 : F64).isFinite = true := by decide!

theorem F64.zero_isFinite : (Arith.ofInt 0 : F64).isFinite = true := by decide!

/-- With the kernel of `main` the assigned expression is `9.0` on nine `+0`. -/
theorem F64.stencil9_mainKern_zero :
    stencil9 mainKern (Arith.ofInt 0 : F64) (Arith.ofInt 0) (Arith.ofInt 0) (Arith.ofInt 0)
      (Arith.ofInt 0) (Arith.ofInt 0) (Arith.ofInt 0) (Arith.ofInt 0) (Arith.ofInt 0)
      = (9 : F64) := by decide!

/-- The conversion of an integer `0 ≤ v < 100` is a finite double of exactly
that value. -/
theorem F64.toRat_ofInt_of_lt_hundred (v : ℤ) (h0 : 0 ≤ v) (h1 : v < 100) :
    F64.toRat (F64.ofInt v) = some (v : ℚ) := by
  have key : ∀ n : Fin 100, F64.toRat (F64.ofInt ((n : Nat) : ℤ)) = some (((n : Nat) : ℤ) : ℚ) := by
    decide!
  obtain ⟨n, rfl⟩ := Int.eq_ofNat_of_zero_le h0
  exact key ⟨n, by omega⟩

/-! ## Zeros in sums of doubles -/

theorem F64.isZero_zero_mul {x : F64} (h : x.isFinite = true) :
    (Arith.mul (weight 0 : F64) x).isZero = true := by
  obtain ⟨s, m, e, rfl⟩ := F64.exists_fin_of_isFinite h
  rw [F64.weight_zero, F64.zero_mul_fin]
  rfl

theorem F64.sameUpToZero_refl (a : F64) : F64.SameUpToZero a a := Or.inl rfl

/-- Adding the same double to two zeros gives the same double, or two zeros. -/
theorem F64.add_zero_left {z z' : F64} (hz : z.isZero = true) (hz' : z'.isZero = true)
    (y : F64) : F64.SameUpToZero (Arith.add z y) (Arith.add z' y) := by
  show F64.SameUpToZero (F64.add z y) (F64.add z' y)
  cases z with
  | inf s => simp [F64.isZero] at hz
  | nan => simp [F64.isZero] at hz
  | fin s m e =>
    cases z' with
    | inf s => simp [F64.isZero] at hz'
    | nan => simp [F64.isZero] at hz'
    | fin s' m' e' =>
      have hm : m = 0 := by simpa [F64.isZero] using hz
      have hm' : m' = 0 := by simpa [F64.isZero] using hz'
      subst hm; subst hm'
      cases y with
      | nan => exact Or.inl rfl
      | inf t => exact Or.inl rfl
      | fin t n q =>
        by_cases hn : n = 0
        · subst hn
          exact Or.inr ⟨by simp [F64.add, F64.isZero], by simp [F64.add, F64.isZero]⟩
        · exact Or.inl (by simp [F64.add, hn])

/-- Adding two zeros to the same double gives the same double, or two zeros. -/
theorem F64.add_zero_right {z z' : F64} (hz : z.isZero = true) (hz' : z'.isZero = true)
    (x : F64) : F64.SameUpToZero (Arith.add x z) (Arith.add x z') := by
  show F64.SameUpToZero (F64.add x z) (F64.add x z')
  cases z with
  | inf s => simp [F64.isZero] at hz
  | nan => simp [F64.isZero] at hz
  | fin s m e =>
    cases z' with
    | inf s => simp [F64.isZero] at hz'
    | nan => simp [F64.isZero] at hz'
    | fin s' m' e' =>
      have hm : m = 0 := by simpa [F64.isZero] using hz
      have hm' : m' = 0 := by simpa [F64.isZero] using hz'
      subst hm; subst hm'
      cases x with
      | nan => exact Or.inl rfl
      | inf t => exact Or.inl rfl
      | fin t n q =>
        by_cases hn : n = 0
        · subst hn
          exact Or.inr ⟨by simp [F64.add, F64.isZero], by simp [F64.add, F64.isZero]⟩
        · exact Or.inl (by simp [F64.add, hn])

/-- Sums of doubles that are the same up to zeros are the same up to zeros. -/
theorem F64.add_same {a a' b b' : F64} (ha : F64.SameUpToZero a a')
    (hb : F64.SameUpToZero b b') : F64.SameUpToZero (Arith.add a b) (Arith.add a' b') := by
  rcases ha with ha | ⟨ha, ha'⟩
  · subst ha
    rcases hb with hb | ⟨hb, hb'⟩
    · subst hb
      exact Or.inl rfl
    · exact F64.add_zero_right hb hb' a
  · rcases hb with hb | ⟨hb, hb'⟩
    · subst hb
      exact F64.add_zero_left ha ha' b
    · have h1 := F64.add_zero_left ha ha' b
      have h2 := F64.add_zero_right hb hb' a'
      rcases h1 with h1 | ⟨h1, h1'⟩
      · rw [h1]
        exact h2
      · rcases h2 with h2 | ⟨h2, h2'⟩
        · rw [← h2]
          exact Or.inr ⟨h1, h1'⟩
        · exact Or.inr ⟨h1, h2'⟩

/-- Adding `9.0` to doubles that are the same up to zeros gives the same
double. -/
theorem F64.add_nine_same {a a' : F64} (h : F64.SameUpToZero a a') :
    Arith.add a (Arith.ofInt 9 : F64) = Arith.add a' (Arith.ofInt 9) := by
  rcases h with h | ⟨h, h'⟩
  · rw [h]
  · have key : ∀ z : F64, z.isZero = true → Arith.add z (Arith.ofInt 9 : F64) = 9 := by
      intro z hz
      cases z with
      | inf s => simp [F64.isZero] at hz
      | nan => simp [F64.isZero] at hz
      | fin s m e =>
        have hm : m = 0 := by simpa [F64.isZero] using hz
        subst hm
        have h9 : (Arith.ofInt 9 : F64) = F64.fin false 5066549580791808 (-49) := by decide!
        have h9' : (9 : F64) = F64.fin false 5066549580791808 (-49) := by decide!
        rw [h9, h9']
        show F64.add (F64.fin s 0 e) (F64.fin false 5066549580791808 (-49)) = _
        simp [F64.add]
    rw [key a h, key a' h']

/-- The assigned expression does not depend on the finite doubles read at the
positions whose kernel entry is zero, among the four positions paired with
already-updated cells. -/
theorem F64.stencil9_same (k : Kernel) {p0 p0' c0 c0' p1 p1' p2 p2' : F64}
    (n0 c1 n1 c2 n2 : F64)
    (h0 : p0 = p0' ∨ (k 0 0 = 0 ∧ p0.isFinite = true ∧ p0'.isFinite = true))
    (h1 : c0 = c0' ∨ (k 1 0 = 0 ∧ c0.isFinite = true ∧ c0'.isFinite = true))
    (h3 : p1 = p1' ∨ (k 0 1 = 0 ∧ p1.isFinite = true ∧ p1'.isFinite = true))
    (h6 : p2 = p2' ∨ (k 0 2 = 0 ∧ p2.isFinite = true ∧ p2'.isFinite = true)) :
    stencil9 k p0 c0 n0 p1 c1 n1 p2 c2 n2 = stencil9 k p0' c0' n0 p1' c1 n1 p2' c2 n2 := by
  have term : ∀ (z : ℤ) (x x' : F64),
      x = x' ∨ (z = 0 ∧ x.isFinite = true ∧ x'.isFinite = true) →
      F64.SameUpToZero (Arith.mul (weight z) x) (Arith.mul (weight z) x') := by
    intro z x x' h
    rcases h with h | ⟨hz, hx, hx'⟩
    · rw [h]
      exact Or.inl rfl
    · subst hz
      exact Or.inr ⟨F64.isZero_zero_mul hx, F64.isZero_zero_mul hx'⟩
  unfold stencil9
  exact F64.add_nine_same
    (F64.add_same (F64.add_same (F64.add_same (F64.add_same (F64.add_same (F64.add_same
      (F64.add_same (F64.add_same (term _ _ _ h0) (term _ _ _ h1)) (Or.inl rfl))
      (term _ _ _ h3)) (Or.inl rfl)) (Or.inl rfl)) (term _ _ _ h6)) (Or.inl rfl)) (Or.inl rfl))

/-- The values of a grid of finite doubles are finite at every index. -/
theorem F64.val_isFinite {R C : Nat} {g : GridOf F64} (hg : HasDims R C g)
    (hfin : ∀ i j, i < R → j < C → ∃ x, rd g i j = some x ∧ x.isFinite = true) (a b : Nat) :
    (val g a b).isFinite = true := by
  by_cases hab : a < R ∧ b < C
  · obtain ⟨x, hx, hxf⟩ := hfin a b hab.1 hab.2
    simpa [val, hx] using hxf
  · rw [val_eq_zero_of_dims hg (by omega)]
    exact F64.zero_isFinite

/-! ## The claims -/

/-- C1: in exact arithmetic, for a grid of `R ≥ 3` rows of `C ≥ 3` cells and
any kernel, `compute` returns a grid `g'` in which every interior cell
`(i, j)` is the weighted sum of its neighbourhood divided by 250 plus 9, where
kernel entry `k[r][c]` is paired with the neighbour at offset `(r - 1, c - 1)`,
the row above and the left neighbour being read from `g'` and the centre, the
right neighbour and the row below from the input `g`. -/
theorem compute_recurrence (R C : Nat) (hR : 3 ≤ R) (hC : 3 ≤ C) (g : Grid)
    (hg : HasDims R C g) (k : Kernel) :
    ∃ g', compute R C g k = some g' ∧
      ∀ i j, 1 ≤ i → i ≤ R - 2 → 1 ≤ j → j ≤ C - 2 →
        rd g' i j = some
          ((k 0 0 * val g' (i - 1) (j - 1) + k 1 0 * val g' i (j - 1)
            + k 2 0 * val g (i + 1) (j - 1)
            + k 0 1 * val g' (i - 1) j + k 1 1 * val g i j + k 2 1 * val g (i + 1) j
            + k 0 2 * val g' (i - 1) (j + 1) + k 1 2 * val g i (j + 1)
            + k 2 2 * val g (i + 1) (j + 1)) / 250 + 9) := by
  obtain ⟨g', hrun, hd, _, hv⟩ := compute_spec hg k
  refine ⟨g', hrun, fun i j hi1 hi2 hj1 hj2 => ?_⟩
  rw [rd_eq_some_val hd (by omega) (by omega), hv i j hi1 (by omega) hj1 (by omega),
    exact_stencil9]

/-- Witness of C1 on a 3x3 grid with the kernel of `main`. -/
theorem compute_recurrence_witness :
    HasDims 3 3 grid3 ∧
    ∃ g', compute 3 3 grid3 mainKern = some g' ∧
      ∀ i j, 1 ≤ i → i ≤ 3 - 2 → 1 ≤ j → j ≤ 3 - 2 →
        rd g' i j = some
          ((mainKern 0 0 * val g' (i - 1) (j - 1) + mainKern 1 0 * val g' i (j - 1)
            + mainKern 2 0 * val grid3 (i + 1) (j - 1)
            + mainKern 0 1 * val g' (i - 1) j
            + mainKern 1 1 * val grid3 i j
            + mainKern 2 1 * val grid3 (i + 1) j
            + mainKern 0 2 * val g' (i - 1) (j + 1)
            + mainKern 1 2 * val grid3 i (j + 1)
            + mainKern 2 2 * val grid3 (i + 1) (j + 1)) / 250 + 9) :=
  ⟨by decide, compute_recurrence 3 3 (by decide) (by decide) _ (by decide) mainKern⟩

/-- C2: in any arithmetic, for a grid of `R ≥ 3` rows of `C ≥ 3` cells and
any kernel, after `compute` every cell on row `0`, row `R - 1`, column `0` or
column `C - 1` reads as before, and any cell that reads differently lies in
the interior `1 ≤ i ≤ R - 2`, `1 ≤ j ≤ C - 2`. -/
theorem compute_border {α : Type} [Arith α] (R C : Nat) (hR : 3 ≤ R) (hC : 3 ≤ C)
    (g : GridOf α) (hg : HasDims R C g) (k : Kernel) :
    ∃ g', compute R C g k = some g' ∧
      (∀ i j, i = 0 ∨ i = R - 1 ∨ j = 0 ∨ j = C - 1 → rd g' i j = rd g i j) ∧
      (∀ i j, rd g' i j ≠ rd g i j → 1 ≤ i ∧ i ≤ R - 2 ∧ 1 ≤ j ∧ j ≤ C - 2) := by
  obtain ⟨g', hrun, hd, hfr, _⟩ := compute_spec hg k
  refine ⟨g', hrun, fun i j hij => ?_, fun i j hne => ?_⟩
  · exact compute_rd_frame hg hd hfr i j (by omega)
  · by_contra hcon
    exact hne (compute_rd_frame hg hd hfr i j (by omega))

/-- Witness of C2 on a 3x3 grid of doubles with the kernel of `main`. -/
theorem compute_border_witness :
    HasDims 3 3 dgrid3 ∧
    ∃ g', compute 3 3 dgrid3 mainKern = some g' ∧
      (∀ i j, i = 0 ∨ i = 3 - 1 ∨ j = 0 ∨ j = 3 - 1 → rd g' i j = rd dgrid3 i j) ∧
      (∀ i j, rd g' i j ≠ rd dgrid3 i j → 1 ≤ i ∧ i ≤ 3 - 2 ∧ 1 ≤ j ∧ j ≤ 3 - 2) :=
  ⟨by decide, compute_border 3 3 (by decide) (by decide) _ (by decide) mainKern⟩

/-- C3, counterexample: on the all-zero 3x4 grid with the kernel of `main`
the interior cell `(1, 2)` does not end as `9`: it reads its left neighbour
`(1, 1)` after that cell was set to `9`. In double arithmetic it ends as
`5046283382468641 * 2^-49` (about `8.964`), in exact arithmetic as `2241/250`;
the double is not `2241/250`. In double arithmetic, on the 3x3 grid that is
zero except for `+inf` at the border cell `(0, 0)`, cell `(1, 1)` ends as NaN
(`0.0 * inf`). -/
theorem zero_interior_not_all_nine :
    compute 3 4 (alloc_matrix 3 4 : GridOf F64) mainKern
      = some [[0, 0, 0, 0], [0, 9, F64.fin false 5046283382468641 (-49), 0], [0, 0, 0, 0]] ∧
    F64.fin false 5046283382468641 (-49) ≠ (9 : F64) ∧
    F64.toRat (F64.fin false 5046283382468641 (-49)) ≠ some (2241 / 250) ∧
    compute 3 4 (alloc_matrix 3 4 : Grid) mainKern
      = some [[0, 0, 0, 0], [0, 9, 2241 / 250, 0], [0, 0, 0, 0]] ∧
    compute 3 3 dinf3 mainKern = some [[F64.inf false, 0, 0], [0, F64.nan, 0], [0, 0, 0]] ∧
    ¬ ∀ (R C : Nat) (g : GridOf F64), 3 ≤ R → 3 ≤ C → HasDims R C g →
        (∀ i j, 1 ≤ i → i ≤ R - 2 → 1 ≤ j → j ≤ C - 2 → rd g i j = some 0) →
        ∃ g', compute R C g mainKern = some g' ∧
          ∀ i j, 1 ≤ i → i ≤ R - 2 → 1 ≤ j → j ≤ C - 2 → rd g' i j = some 9 := by
  have hrun : compute 3 4 (alloc_matrix 3 4 : GridOf F64) mainKern
      = some [[0, 0, 0, 0], [0, 9, F64.fin false 5046283382468641 (-49), 0], [0, 0, 0, 0]] := by
    decide!
  have hex : compute 3 4 (alloc_matrix 3 4 : Grid) mainKern
      = some [[0, 0, 0, 0], [0, 9, 2241 / 250, 0], [0, 0, 0, 0]] := by
    simp [compute, forRange, rowStep, cellStep, cellValue, mulAt, addO, rd, wr, kern_factor,
      weight, factor, mainKern, alloc_matrix, List.replicate]
    norm_num
  refine ⟨hrun, by decide!, ?_, hex, by decide!, fun hall => ?_⟩
  · simp [F64.toRat]
    norm_num
  · obtain ⟨g', hg', hnine⟩ := hall 3 4 (alloc_matrix 3 4) (by decide) (by decide) (by decide)
      (fun i j _ _ _ _ => by
        have hi : i = 1 := by omega
        have hj : j = 1 ∨ j = 2 := by omega
        rcases hj with hj | hj <;> subst hi <;> subst hj <;> decide!)
    rw [hrun] at hg'
    have hEq := Option.some.inj hg'
    subst hEq
    have h12 := hnine 1 2 (by decide) (by decide) (by decide) (by decide)
    revert h12
    decide!

/-- C3, amended. In exact arithmetic, for a grid of `R ≥ 3` rows of `C ≥ 3`
cells whose interior cells are all zero, and the kernel of `main`, every
interior cell `(i, j)` of the result `g'` equals
`9 - (g'[i-1][j] + g'[i][j-1] + g[i][j+1] + g[i+1][j]) / 250`, and cell `(1, 1)`
equals `9` when the input cells `(0, 1)`, `(1, 0)`, `(1, 2)`, `(2, 1)` are
zero. In double arithmetic, on the all-zero grid of `R` rows of `C` cells, cell
`(1, 1)` of the result is exactly `9.0`. -/
theorem zero_interior_value (R C : Nat) (hR : 3 ≤ R) (hC : 3 ≤ C) (g : Grid)
    (hg : HasDims R C g)
    (hz : ∀ i j, 1 ≤ i → i ≤ R - 2 → 1 ≤ j → j ≤ C - 2 → rd g i j = some 0) :
    (∃ g', compute R C g mainKern = some g' ∧
      (∀ i j, 1 ≤ i → i ≤ R - 2 → 1 ≤ j → j ≤ C - 2 →
        rd g' i j = some
          (9 - (val g' (i - 1) j + val g' i (j - 1) + val g i (j + 1) + val g (i + 1) j) / 250)) ∧
      (val g 0 1 = 0 → val g 1 0 = 0 → val g 1 2 = 0 → val g 2 1 = 0 → rd g' 1 1 = some 9)) ∧
    (∃ d', compute R C (alloc_matrix R C : GridOf F64) mainKern = some d' ∧
      rd d' 1 1 = some 9) := by
  constructor
  · obtain ⟨g', hrun, hd, hfr, hv⟩ := compute_spec hg mainKern
    have hcell : ∀ i j, 1 ≤ i → i ≤ R - 2 → 1 ≤ j → j ≤ C - 2 →
        val g' i j =
          9 - (val g' (i - 1) j + val g' i (j - 1) + val g i (j + 1) + val g (i + 1) j) / 250 := by
      intro i j hi1 hi2 hj1 hj2
      have h0 : val g i j = 0 := by simp [val, hz i j hi1 hi2 hj1 hj2]
      rw [hv i j hi1 (by omega) hj1 (by omega), h0, exact_stencil9]
      simp [mainKern]
      ring
    refine ⟨g', hrun, fun i j hi1 hi2 hj1 hj2 => ?_, fun h01 h10 h12 h21 => ?_⟩
    · rw [rd_eq_some_val hd (by omega) (by omega), hcell i j hi1 hi2 hj1 hj2]
    · rw [rd_eq_some_val hd (by omega) (by omega),
        hcell 1 1 (by omega) (by omega) (by omega) (by omega),
        hfr 0 1 (by omega), hfr 1 0 (by omega), h01, h10, h12, h21]
      norm_num
  · obtain ⟨d', hrun, hd, hfr, hv⟩ :=
      compute_spec (alloc_matrix_dims R C : HasDims R C (alloc_matrix R C : GridOf F64)) mainKern
    refine ⟨d', hrun, ?_⟩
    rw [rd_eq_some_val hd (by omega) (by omega), hv 1 1 (by omega) (by omega) (by omega) (by omega),
      hfr (1 - 1) (1 - 1) (by omega), hfr 1 (1 - 1) (by omega), hfr (1 - 1) 1 (by omega),
      hfr (1 - 1) (1 + 1) (by omega)]
    simp only [val_alloc_matrix]
    rw [F64.stencil9_mainKern_zero]

/-- Witness of the amended C3 on the all-zero 3x4 grid. -/
theorem zero_interior_value_witness :
    HasDims 3 4 (alloc_matrix 3 4 : Grid) ∧
    (∀ i j, 1 ≤ i → i ≤ 3 - 2 → 1 ≤ j → j ≤ 4 - 2 →
      rd (alloc_matrix 3 4 : Grid) i j = some 0) ∧
    (∃ g', compute 3 4 (alloc_matrix 3 4 : Grid) mainKern = some g' ∧
      (∀ i j, 1 ≤ i → i ≤ 3 - 2 → 1 ≤ j → j ≤ 4 - 2 →
        rd g' i j = some
          (9 - (val g' (i - 1) j + val g' i (j - 1) + val (alloc_matrix 3 4 : Grid) i (j + 1)
            + val (alloc_matrix 3 4 : Grid) (i + 1) j) / 250)) ∧
      (val (alloc_matrix 3 4 : Grid) 0 1 = 0 → val (alloc_matrix 3 4 : Grid) 1 0 = 0 →
        val (alloc_matrix 3 4 : Grid) 1 2 = 0 → val (alloc_matrix 3 4 : Grid) 2 1 = 0 →
        rd g' 1 1 = some 9)) ∧
    (∃ d', compute 3 4 (alloc_matrix 3 4 : GridOf F64) mainKern = some d' ∧
      rd d' 1 1 = some 9) :=
  have hz : ∀ i j, 1 ≤ i → i ≤ 3 - 2 → 1 ≤ j → j ≤ 4 - 2 →
      rd (alloc_matrix 3 4 : Grid) i j = some 0 := fun i j _ _ _ _ => by
    have hi : i = 1 := by omega
    have hj : j = 1 ∨ j = 2 := by omega
    rcases hj with hj | hj <;> subst hi <;> subst hj <;> simp [rd, alloc_matrix, List.replicate]
  ⟨by decide, hz, zero_interior_value 3 4 (by decide) (by decide) _ (by decide) hz⟩

/-- C4, counterexample. In double arithmetic, on the 5x5 grid that is zero
except for `250` at `(2, 2)`, with the kernel of `main`, cell `(1, 2)` ends as
`8966666858094658 * 2^-50` (about `7.964`), not as `k[2][1] * 250 / 250 + 9 = 8`:
it also reads its left neighbour `(1, 1)` after that cell was set to `9`; in
exact arithmetic it ends as `1991/250`. With `centreKern`, whose entries
paired with already-updated cells are zero, and `10^308` at `(2, 2)`, cell
`(2, 2)` overflows to `+inf` and cell `(2, 3)` ends as NaN, not as
`k[1][0] * V / 250 + 9 = 9`. -/
theorem single_cell_weight_fails :
    (∃ d', compute 5 5 dspike mainKern = some d' ∧
      rd d' 1 2 = some (F64.fin false 8966666858094658 (-50)) ∧
      F64.toRat (F64.fin false 8966666858094658 (-50))
        ≠ some ((mainKern 2 1 : ℚ) * 250 / 250 + 9)) ∧
    (∃ g', compute 5 5 spikeGrid mainKern = some g' ∧ rd g' 1 2 = some (1991 / 250)) ∧
    (∃ d', compute 5 5 dspikeHuge centreKern = some d' ∧
      rd d' 2 2 = some (F64.inf false) ∧ rd d' 2 3 = some F64.nan) ∧
    ¬ ∀ (R C : Nat) (g : GridOf F64) (k : Kernel) (a b : Nat) (V : F64), HasDims R C g →
        2 ≤ a → a + 2 < R → 2 ≤ b → b + 2 < C → rd g a b = some V → V.isFinite = true →
        (∀ i j, i < R → j < C → ¬ (i = a ∧ j = b) → rd g i j = some 0) →
        ∃ g', compute R C g k = some g' ∧
          ∀ r c : Fin 3, (rd g' (a + 1 - r) (b + 1 - c)).bind F64.toRat
            = (F64.toRat V).map (fun v => (k r c : ℚ) * v / 250 + 9) := by
  have hne : F64.toRat (F64.fin false 8966666858094658 (-50))
      ≠ some ((mainKern 2 1 : ℚ) * 250 / 250 + 9) := by
    simp [F64.toRat, mainKern]
    norm_num
  have hrun : (compute 5 5 dspike mainKern).bind (fun d' => rd d' 1 2)
      = some (F64.fin false 8966666858094658 (-50)) := by decide!
  have hex : ∃ g', compute 5 5 spikeGrid mainKern = some g' ∧ rd g' 1 2 = some (1991 / 250) := by
    simp [compute, forRange, rowStep, cellStep, cellValue, mulAt, addO, rd, wr, kern_factor,
      weight, factor, mainKern, spikeGrid]
    norm_num
  have h250 : (250 : F64) = F64.fin false 8796093022208000 (-45) := by decide!
  refine ⟨⟨_, rfl, by decide!, hne⟩, hex, ⟨_, rfl, by decide!, by decide!⟩, fun hall => ?_⟩
  obtain ⟨g', hg', hnine⟩ := hall 5 5 dspike mainKern 2 2 250 (by decide) (by decide)
    (by decide) (by decide) (by decide) (by decide!) (by decide!)
    (fun i j hi hj hij => by
      interval_cases i <;> interval_cases j <;> first | decide! | exact absurd ⟨rfl, rfl⟩ hij)
  rw [hg'] at hrun
  have h := hnine 2 1
  simp only [Option.some_bind] at hrun
  simp only [Fin.isValue, Fin.val_two, Fin.val_one] at h
  rw [show (2 + 1 - 2 : Nat) = 1 from rfl, show (2 + 1 - 1 : Nat) = 2 from rfl, hrun, h250] at h
  apply hne
  rw [Option.some_bind] at h
  rw [h]
  simp [F64.toRat]
  norm_num

/-- C4, amended: in exact arithmetic, for every value `V` and every kernel
whose entries paired with already-updated cells are zero
(`k[0][0] = k[0][1] = k[0][2] = k[1][0] = 0`), on a grid that is zero except for
`V` at `(a, b)`, with all nine cells `(a - dr, b - dc)` interior, the result at
`(a - dr, b - dc)` equals `k[1 + dr][1 + dc] * V / 250 + 9`; here `r = 1 + dr`
and `c = 1 + dc`. -/
theorem single_cell_weight (R C : Nat) (g : Grid) (k : Kernel) (a b : Nat) (V : ℚ)
    (hg : HasDims R C g) (ha1 : 2 ≤ a) (ha2 : a + 2 < R) (hb1 : 2 ≤ b) (hb2 : b + 2 < C)
    (hV : rd g a b = some V)
    (hz : ∀ i j, i < R → j < C → ¬ (i = a ∧ j = b) → rd g i j = some 0)
    (h00 : k 0 0 = 0) (h01 : k 0 1 = 0) (h02 : k 0 2 = 0) (h10 : k 1 0 = 0) :
    ∃ g', compute R C g k = some g' ∧
      ∀ r c : Fin 3, rd g' (a + 1 - r) (b + 1 - c) = some (k r c * V / 250 + 9) := by
  obtain ⟨g', hrun, hd, _, hv⟩ := compute_causal hg k h00 h01 h02 h10
  have hval : ∀ x y, val g x y = if x = a ∧ y = b then V else 0 := by
    intro x y
    by_cases hxy : x = a ∧ y = b
    · obtain ⟨hx, hy⟩ := hxy
      subst hx; subst hy
      simp [val, hV]
    · by_cases hin : x < R ∧ y < C
      · simp [val, hz x y hin.1 hin.2 hxy, hxy]
      · rw [val_eq_zero_of_dims hg (by omega), if_neg hxy]
        rfl
  obtain ⟨a', rfl⟩ : ∃ a', a = a' + 2 := ⟨a - 2, by omega⟩
  obtain ⟨b', rfl⟩ : ∃ b', b = b' + 2 := ⟨b - 2, by omega⟩
  refine ⟨g', hrun, fun r c => ?_⟩
  have hr : (r : Nat) < 3 := r.2
  have hc : (c : Nat) < 3 := c.2
  rw [rd_eq_some_val hd (by omega) (by omega), hv _ _ (by omega) (by omega) (by omega) (by omega)]
  fin_cases r <;> fin_cases c <;> simp [stencil, hval, h00, h01, h02, h10]

/-- Witness of the amended C4 on `spikeGrid` with `lowerKern`. -/
theorem single_cell_weight_witness :
    HasDims 5 5 spikeGrid ∧ rd spikeGrid 2 2 = some 250 ∧
    (∀ i j, i < 5 → j < 5 → ¬ (i = 2 ∧ j = 2) → rd spikeGrid i j = some 0) ∧
    lowerKern 0 0 = 0 ∧ lowerKern 0 1 = 0 ∧ lowerKern 0 2 = 0 ∧ lowerKern 1 0 = 0 ∧
    ∃ g', compute 5 5 spikeGrid lowerKern = some g' ∧
      ∀ r c : Fin 3, rd g' (2 + 1 - r) (2 + 1 - c)
        = some ((lowerKern r c : ℚ) * 250 / 250 + 9) :=
  have hz : ∀ i j, i < 5 → j < 5 → ¬ (i = 2 ∧ j = 2) → rd spikeGrid i j = some 0 :=
    fun i j hi hj hij => by
      interval_cases i <;> interval_cases j <;> simp [rd, spikeGrid] at hij ⊢
  ⟨by decide, by simp [rd, spikeGrid], hz, rfl, rfl, rfl, rfl,
    single_cell_weight 5 5 spikeGrid lowerKern 2 2 250 (by decide) (by decide) (by decide)
      (by decide) (by decide) (by simp [rd, spikeGrid]) hz rfl rfl rfl rfl⟩

/-- C5, counterexample: in double arithmetic, on the 3x3 grid with `10^17` at
`(0, 0)` and `(2, 2)` and `1` at the centre, with the kernel of diagonal
`250, 250, -250`, `compute` stores `9.0` at `(1, 1)`: the `1` is absorbed when
it is added to `10^17`. The sum over `r, c` of `k[r][c] * g[r][c]`, divided by
250, plus 9, is `10`. -/
theorem three_by_three_rounds :
    HasDims 3 3 dcorners ∧
    compute 3 3 dcorners diagKern
      = some [[100000000000000000, 0, 0], [0, 9, 0], [0, 0, 100000000000000000]] ∧
    F64.toRat (9 : F64) = some 9 ∧
    (∑ r : Fin 3, ∑ c : Fin 3, (diagKern r c : ℚ) * valR dcorners r c) / 250 + 9 = 10 ∧
    ¬ ∀ (g : GridOf F64) (k : Kernel), HasDims 3 3 g →
        (∀ i j, i < 3 → j < 3 → ∃ x, rd g i j = some x ∧ x.isFinite = true) →
        ∃ g', compute 3 3 g k = some g' ∧
          (∀ i j, ¬ (i = 1 ∧ j = 1) → rd g' i j = rd g i j) ∧
          (rd g' 1 1).bind F64.toRat
            = some ((∑ r : Fin 3, ∑ c : Fin 3, (k r c : ℚ) * valR g r c) / 250 + 9) := by
  have hrun : compute 3 3 dcorners diagKern
      = some [[100000000000000000, 0, 0], [0, 9, 0], [0, 0, 100000000000000000]] := by decide!
  have hlit : dcorners = [[F64.fin false 6250000000000000 4, F64.fin false 0 0, F64.fin false 0 0],
      [F64.fin false 0 0, F64.fin false 4503599627370496 (-52), F64.fin false 0 0],
      [F64.fin false 0 0, F64.fin false 0 0, F64.fin false 6250000000000000 4]] := by decide!
  have h9 : (9 : F64) = F64.fin false 5066549580791808 (-49) := by decide!
  have hnine : F64.toRat (9 : F64) = some 9 := by
    rw [h9]
    simp [F64.toRat]
    norm_num
  have hsum : (∑ r : Fin 3, ∑ c : Fin 3, (diagKern r c : ℚ) * valR dcorners r c) / 250 + 9
      = 10 := by
    rw [hlit]
    simp [Fin.sum_univ_three, valR, rd, F64.toRat, diagKern]
    norm_num
  refine ⟨by decide, hrun, hnine, hsum, fun hall => ?_⟩
  obtain ⟨g', hg', _, h11⟩ := hall dcorners diagKern (by decide)
    (fun i j hi hj => by
      interval_cases i <;> interval_cases j <;> exact ⟨_, rfl, by decide!⟩)
  rw [hrun] at hg'
  have hEq := Option.some.inj hg'
  subst hEq
  rw [hsum] at h11
  have h11' : (rd ([[100000000000000000, 0, 0], [0, 9, 0], [0, 0, 100000000000000000]] :
      GridOf F64) 1 1) = some 9 := rfl
  rw [h11', Option.some_bind, hnine] at h11
  norm_num at h11

/-- C5, amended: for every 3x3 grid and every kernel, `compute` changes at
most cell `(1, 1)`, and its value there is the assigned expression of the
source evaluated on the original input, in whatever arithmetic (in double
arithmetic every product and sum is rounded); in exact arithmetic that value
is the sum over `r, c` of `k[r][c] * g[r][c]`, divided by 250, plus 9. -/
theorem compute_three_by_three {α : Type} [Arith α] (d : GridOf α) (hd : HasDims 3 3 d)
    (g : Grid) (hg : HasDims 3 3 g) (k : Kernel) :
    (∃ d', compute 3 3 d k = some d' ∧
      (∀ i j, ¬ (i = 1 ∧ j = 1) → rd d' i j = rd d i j) ∧
      rd d' 1 1 = cellValue (kern_factor k) d 1 1) ∧
    (∃ g', compute 3 3 g k = some g' ∧
      (∀ i j, ¬ (i = 1 ∧ j = 1) → rd g' i j = rd g i j) ∧
      rd g' 1 1 = some ((∑ r : Fin 3, ∑ c : Fin 3, (k r c : ℚ) * val g r c) / 250 + 9)) := by
  constructor
  · obtain ⟨d', hrun, hd', hfr, hv⟩ := compute_spec hd k
    refine ⟨d', hrun, fun i j hij => compute_rd_frame hd hd' hfr i j (by omega), ?_⟩
    rw [rd_eq_some_val hd' (by omega) (by omega),
      hv 1 1 (by omega) (by omega) (by omega) (by omega),
      cellValue_models (models_val hd) k (by omega) (by omega),
      hfr (1 - 1) (1 - 1) (by omega), hfr 1 (1 - 1) (by omega), hfr (1 - 1) 1 (by omega),
      hfr (1 - 1) (1 + 1) (by omega)]
    rfl
  · obtain ⟨g', hrun, hd', hfr, hv⟩ := compute_spec hg k
    refine ⟨g', hrun, fun i j hij => compute_rd_frame hg hd' hfr i j (by omega), ?_⟩
    rw [rd_eq_some_val hd' (by omega) (by omega),
      hv 1 1 (by omega) (by omega) (by omega) (by omega), exact_stencil9]
    simp only [Nat.sub_self, Nat.reduceAdd, hfr 0 0 (by omega), hfr 1 0 (by omega),
      hfr 0 1 (by omega), hfr 0 2 (by omega), Fin.sum_univ_three]
    congr 1
    simp
    ring

/-- Witness of the amended C5 on `dcorners` and `grid3` with the kernel of
`main`. -/
theorem compute_three_by_three_witness :
    HasDims 3 3 dcorners ∧ HasDims 3 3 grid3 ∧
    (∃ d', compute 3 3 dcorners mainKern = some d' ∧
      (∀ i j, ¬ (i = 1 ∧ j = 1) → rd d' i j = rd dcorners i j) ∧
      rd d' 1 1 = cellValue (kern_factor mainKern) dcorners 1 1) ∧
    (∃ g', compute 3 3 grid3 mainKern = some g' ∧
      (∀ i j, ¬ (i = 1 ∧ j = 1) → rd g' i j = rd grid3 i j) ∧
      rd g' 1 1
        = some ((∑ r : Fin 3, ∑ c : Fin 3, (mainKern r c : ℚ) * val grid3 r c) / 250 + 9)) :=
  ⟨by decide, by decide,
    compute_three_by_three dcorners (by decide) grid3 (by decide) mainKern⟩

/-! ## A row computed from a snapshot -/

theorem grid_ext {α : Type} {R C : Nat} {g1 g2 : GridOf α} (h1 : HasDims R C g1)
    (h2 : HasDims R C g2) (h : ∀ i j, i < R → j < C → rd g1 i j = rd g2 i j) : g1 = g2 := by
  apply List.ext_getElem (by rw [h1.1, h2.1])
  intro i hi1 hi2
  have hr1 : (g1[i]).length = C := h1.2 _ (List.getElem_mem _)
  have hr2 : (g2[i]).length = C := h2.2 _ (List.getElem_mem _)
  apply List.ext_getElem (by rw [hr1, hr2])
  intro j hj1 hj2
  have hij := h i j (by rw [← h1.1]; exact hi1) (by rw [← hr1]; exact hj1)
  simpa [rd, List.getElem?_eq_getElem hi1, List.getElem?_eq_getElem hi2,
    List.getElem?_eq_getElem hj1, List.getElem?_eq_getElem hj2] using hij

theorem models_congr {α : Type} {R C : Nat} {arr : GridOf α} {f f' : GridF α}
    (h : Models R C arr f) (hff : ∀ a b, f a b = f' a b) : Models R C arr f' :=
  ⟨h.1, fun i j hi hj => by rw [h.2 i j hi hj, hff]⟩

theorem models_unique {α : Type} {R C : Nat} {g1 g2 : GridOf α} {f1 f2 : GridF α}
    (h1 : Models R C g1 f1) (h2 : Models R C g2 f2) (h : ∀ a b, f1 a b = f2 a b) : g1 = g2 :=
  grid_ext h1.1 h2.1 (fun i j hi hj => by rw [h1.2 i j hi hj, h2.2 i j hi hj, h])

theorem rowSnapshot_models {α : Type} [Arith α] {R C : Nat} {arr : GridOf α} {f : GridF α}
    (h : Models R C arr f) (kern : Kernel) {i : Nat} (hi : i + 1 < R) (js : List Nat) :
    (∀ j ∈ js, j + 1 < C) → ∀ (acc : GridOf α) (p : GridF α), Models R C acc p →
      ∃ res, rowSnapshot (kern_factor kern) i arr js acc = some res ∧
        Models R C res (fun a b => if a = i ∧ b ∈ js then cellValF kern f i b else p a b) := by
  induction js with
  | nil =>
    intro _ acc p hacc
    exact ⟨acc, rfl, models_congr hacc (fun a b => by simp)⟩
  | cons j js ih =>
    intro hjs acc p hacc
    have hj : j + 1 < C := hjs j (List.mem_cons_self _ _)
    obtain ⟨acc', hw, hacc'⟩ :=
      wr_models hacc (i := i) (j := j) (by omega) (by omega) (cellValF kern f i j)
    obtain ⟨res, hres, hm⟩ :=
      ih (fun x hx => hjs x (List.mem_cons_of_mem _ hx)) acc' _ hacc'
    refine ⟨res, by simp [rowSnapshot, cellValue_models h kern hi hj, hw, hres], ?_⟩
    refine models_congr hm (fun a b => ?_)
    by_cases ha : a = i
    · by_cases hb : b ∈ js
      · simp [ha, hb]
      · by_cases hbj : b = j
        · simp [ha, hbj, updF]
        · simp [ha, hb, hbj, updF]
    · simp [ha, updF]

theorem rowStepF_of_left_zero (kern : Kernel) (h10 : kern 1 0 = 0) (C i : Nat) (hi : 1 ≤ i)
    (f : GridF ℚ) (a b : Nat) :
    rowStepF kern C i f a b
      = if a = i ∧ b ∈ List.range' 1 (C - 2) then cellValF kern f i b else f a b := by
  have hmem : b ∈ List.range' 1 (C - 2) ↔ 1 ≤ b ∧ b < 1 + (C - 1 - 1) := by
    rw [List.mem_range'_1]
    omega
  by_cases hab : a = i ∧ 1 ≤ b ∧ b < 1 + (C - 1 - 1)
  · obtain ⟨ha, hb1, hb2⟩ := hab
    subst ha
    rw [if_pos ⟨rfl, hmem.2 ⟨hb1, hb2⟩⟩]
    unfold rowStepF
    rw [iterF_cell_value kern a hi (C - 1 - 1) 1 f (Nat.le_refl _) b hb1 hb2]
    simp [cellValF, exact_stencil9, h10]
  · have hn : ¬ (a = i ∧ b ∈ List.range' 1 (C - 2)) := fun h => hab ⟨h.1, hmem.1 h.2⟩
    rw [if_neg hn]
    exact iterF_cell_frame kern i (C - 1 - 1) 1 f a b hab

theorem F64.rowStepF_finite_left_zero (kern : Kernel) (h10 : kern 1 0 = 0) (C i : Nat)
    (hi : 1 ≤ i) (f : GridF F64) (hf : ∀ a b, (f a b).isFinite = true)
    (hf' : ∀ a b, (rowStepF kern C i f a b).isFinite = true) (a b : Nat) :
    rowStepF kern C i f a b
      = if a = i ∧ b ∈ List.range' 1 (C - 2) then cellValF kern f i b else f a b := by
  have hmem : b ∈ List.range' 1 (C - 2) ↔ 1 ≤ b ∧ b < 1 + (C - 1 - 1) := by
    rw [List.mem_range'_1]
    omega
  by_cases hab : a = i ∧ 1 ≤ b ∧ b < 1 + (C - 1 - 1)
  · obtain ⟨ha, hb1, hb2⟩ := hab
    subst ha
    rw [if_pos ⟨rfl, hmem.2 ⟨hb1, hb2⟩⟩]
    have hval := iterF_cell_value kern a hi (C - 1 - 1) 1 f (Nat.le_refl _) b hb1 hb2
    unfold rowStepF at hf' ⊢
    rw [hval]
    unfold cellValF
    exact F64.stencil9_same kern _ _ _ _ _ (Or.inl rfl)
      (Or.inr ⟨h10, hf' a (b - 1), hf a (b - 1)⟩) (Or.inl rfl) (Or.inl rfl)
  · have hn : ¬ (a = i ∧ b ∈ List.range' 1 (C - 2)) := fun h => hab ⟨h.1, hmem.1 h.2⟩
    rw [if_neg hn]
    exact iterF_cell_frame kern i (C - 1 - 1) 1 f a b hab

/-- C6, counterexample. In double arithmetic, on the all-zero 3x4 grid with
the kernel of `main`, where the sweep reaches row `1` with the grid unchanged,
the in-place sweep of row `1` gives `5046283382468641 * 2^-49` (about `8.964`)
at `(1, 2)` and the row computed from the snapshot gives `9` there. With
`centreKern`, for which `k[1][0] = 0`, on the grid with `10^308` at `(1, 1)`,
cell `(1, 1)` overflows to `+inf`; the sweep then stores NaN at `(1, 2)`
(`0.0 * inf`) and the snapshot row stores `9`. -/
theorem row_snapshot_ne_sweep :
    forRange (rowStep (kern_factor mainKern) 4) (1 - 1) 1 (alloc_matrix 3 4 : GridOf F64)
      = some (alloc_matrix 3 4) ∧
    rowStep (kern_factor mainKern) 4 1 (alloc_matrix 3 4 : GridOf F64)
      = some [[0, 0, 0, 0], [0, 9, F64.fin false 5046283382468641 (-49), 0], [0, 0, 0, 0]] ∧
    rowSnapshot (kern_factor mainKern) 1 (alloc_matrix 3 4 : GridOf F64) (List.range' 1 (4 - 2))
        (alloc_matrix 3 4)
      = some [[0, 0, 0, 0], [0, 9, 9, 0], [0, 0, 0, 0]] ∧
    rowSnapshot (kern_factor mainKern) 1 (alloc_matrix 3 4 : GridOf F64) (List.range' 1 (4 - 2))
        (alloc_matrix 3 4)
      ≠ rowStep (kern_factor mainKern) 4 1 (alloc_matrix 3 4 : GridOf F64) ∧
    centreKern 1 0 = 0 ∧
    rowStep (kern_factor centreKern) 4 1 dhuge3x4
      = some [[0, 0, 0, 0], [0, F64.inf false, F64.nan, 0], [0, 0, 0, 0]] ∧
    rowSnapshot (kern_factor centreKern) 1 dhuge3x4 (List.range' 1 (4 - 2)) dhuge3x4
      = some [[0, 0, 0, 0], [0, F64.inf false, 9, 0], [0, 0, 0, 0]] := by
  refine ⟨rfl, ?_, ?_, ?_, rfl, ?_, ?_⟩ <;> decide!

/-- C6, amended: for a grid of `R ≥ 3` rows of `C ≥ 3` cells, a kernel with
`k[1][0] = 0` (the entry paired with the left neighbour) and an interior row
`i`, the sweep reaches row `i` with some grid `s`, the in-place left-to-right
sweep of row `i` turns `s` into some `s'`, and computing the interior cells of
row `i` from the snapshot `s`, in any order `js` of the columns `1 .. C - 2`,
gives the same `s'`: in exact arithmetic always, and in double arithmetic when
neither `s` nor `s'` holds an infinity or a NaN. In exact arithmetic, for
every kernel `k'` with `k'[1][0] ≠ 0` the snapshot row and the in-place sweep
of row `1` differ on the all-zero 3x4 grid. -/
theorem row_snapshot_eq_sweep (R C : Nat) (hR : 3 ≤ R) (hC : 3 ≤ C) (g : Grid)
    (hg : HasDims R C g) (d : GridOf F64) (hd : HasDims R C d) (k : Kernel) (hk : k 1 0 = 0)
    (i : Nat) (hi1 : 1 ≤ i) (hi2 : i ≤ R - 2) :
    (∃ s s', forRange (rowStep (kern_factor k) C) (i - 1) 1 g = some s ∧
      rowStep (kern_factor k) C i s = some s' ∧
      ∀ js : List Nat, js.Perm (List.range' 1 (C - 2)) →
        rowSnapshot (kern_factor k) i s js s = some s') ∧
    (∃ s s', forRange (rowStep (kern_factor k) C) (i - 1) 1 d = some s ∧
      rowStep (kern_factor k) C i s = some s' ∧
      ((∀ a b, a < R → b < C → ∃ x, rd s a b = some x ∧ x.isFinite = true) →
        (∀ a b, a < R → b < C → ∃ x, rd s' a b = some x ∧ x.isFinite = true) →
        ∀ js : List Nat, js.Perm (List.range' 1 (C - 2)) →
          rowSnapshot (kern_factor k) i s js s = some s')) ∧
    (∀ k' : Kernel, k' 1 0 ≠ 0 →
      rowSnapshot (kern_factor k') 1 (alloc_matrix 3 4 : Grid) (List.range' 1 (4 - 2))
          (alloc_matrix 3 4)
        ≠ rowStep (kern_factor k') 4 1 (alloc_matrix 3 4 : Grid)) := by
  refine ⟨?_, ?_, ?_⟩
  · obtain ⟨s, hs, hms⟩ :=
      forRange_rel (Models R C) (rowStep (kern_factor k) C) (rowStepF k C) (i - 1) 1
        (fun _ _ hx _ _ hm => rowStep_models hm k (by omega)) g (val g) (models_val hg)
    obtain ⟨s', hs', hms'⟩ := rowStep_models hms k (i := i) (by omega)
    refine ⟨s, s', hs, hs', fun js hperm => ?_⟩
    have hjs : ∀ j ∈ js, j + 1 < C := by
      intro j hj
      have := (List.mem_range'_1.1 ((hperm.mem_iff).1 hj))
      omega
    obtain ⟨res, hres, hmres⟩ := rowSnapshot_models hms k (i := i) (by omega) js hjs s _ hms
    rw [hres]
    congr 1
    refine models_unique hmres hms' (fun a b => ?_)
    rw [rowStepF_of_left_zero k hk C i hi1]
    simp only [hperm.mem_iff]
  · obtain ⟨s, hs, hms⟩ :=
      forRange_rel (Models R C) (rowStep (kern_factor k) C) (rowStepF k C) (i - 1) 1
        (fun _ _ hx _ _ hm => rowStep_models hm k (by omega)) d (val d) (models_val hd)
    obtain ⟨s', hs', hms'⟩ := rowStep_models (models_val hms.1) k (i := i) (by omega)
    refine ⟨s, s', hs, hs', fun hfs hfs' js hperm => ?_⟩
    have hjs : ∀ j ∈ js, j + 1 < C := by
      intro j hj
      have := (List.mem_range'_1.1 ((hperm.mem_iff).1 hj))
      omega
    obtain ⟨res, hres, hmres⟩ :=
      rowSnapshot_models (models_val hms.1) k (i := i) (by omega) js hjs s _ (models_val hms.1)
    rw [hres]
    congr 1
    refine models_unique hmres hms' (fun a b => ?_)
    have hf : ∀ a b, (val s a b).isFinite = true := F64.val_isFinite hms.1 hfs
    have hf' : ∀ a b, (rowStepF k C i (val s) a b).isFinite = true := by
      intro a b
      by_cases hab : a < R ∧ b < C
      · rw [← val_eq_of_models hms' hab.1 hab.2]
        exact F64.val_isFinite hms'.1 hfs' a b
      · have hfr : rowStepF k C i (val s) a b = val s a b :=
          iterF_cell_frame k i (C - 1 - 1) 1 (val s) a b (by omega)
        rw [hfr]
        exact hf a b
    rw [F64.rowStepF_finite_left_zero k hk C i hi1 (val s) hf hf']
    simp only [hperm.mem_iff]
  · intro k' hk'
    have hk'' : (k' 1 0 : ℚ) ≠ 0 := by exact_mod_cast hk'
    simp [rowSnapshot, List.range', forRange, rowStep, cellStep, cellValue, mulAt, addO, rd, wr,
      kern_factor, weight, factor, alloc_matrix, List.replicate, hk'']

/-- Witness of the amended C6 on the all-zero 3x4 grids with `lowerKern`, row
`1`. -/
theorem row_snapshot_eq_sweep_witness :
    HasDims 3 4 (alloc_matrix 3 4 : Grid) ∧ HasDims 3 4 (alloc_matrix 3 4 : GridOf F64) ∧
    lowerKern 1 0 = 0 ∧
    (∃ s s', forRange (rowStep (kern_factor lowerKern) 4) (1 - 1) 1 (alloc_matrix 3 4 : Grid)
        = some s ∧
      rowStep (kern_factor lowerKern) 4 1 s = some s' ∧
      ∀ js : List Nat, js.Perm (List.range' 1 (4 - 2)) →
        rowSnapshot (kern_factor lowerKern) 1 s js s = some s') ∧
    (∃ s s', forRange (rowStep (kern_factor lowerKern) 4) (1 - 1) 1
        (alloc_matrix 3 4 : GridOf F64) = some s ∧
      rowStep (kern_factor lowerKern) 4 1 s = some s' ∧
      ((∀ a b, a < 3 → b < 4 → ∃ x, rd s a b = some x ∧ x.isFinite = true) →
        (∀ a b, a < 3 → b < 4 → ∃ x, rd s' a b = some x ∧ x.isFinite = true) →
        ∀ js : List Nat, js.Perm (List.range' 1 (4 - 2)) →
          rowSnapshot (kern_factor lowerKern) 1 s js s = some s')) ∧
    (∀ k' : Kernel, k' 1 0 ≠ 0 →
      rowSnapshot (kern_factor k') 1 (alloc_matrix 3 4 : Grid) (List.range' 1 (4 - 2))
          (alloc_matrix 3 4)
        ≠ rowStep (kern_factor k') 4 1 (alloc_matrix 3 4 : Grid)) :=
  ⟨by decide, by decide, rfl,
    row_snapshot_eq_sweep 3 4 (by decide) (by decide) (alloc_matrix 3 4) (by decide)
      (alloc_matrix 3 4) (by decide) lowerKern rfl 1 (by decide) (by decide)⟩

/-- C7: with the kernel of `main` there is a 5x5 input, the all-zero grid, on
which `compute` leaves at `(2, 2)` a value other than the double-buffered
stencil of the input: in exact arithmetic `279009/31250` against `9`, and in
double arithmetic `5026179313732059 * 2^-49` against `9.0`. -/
theorem sweep_differs_from_stencil :
    (HasDims 5 5 (alloc_matrix 5 5 : Grid) ∧
      ∃ g', compute 5 5 (alloc_matrix 5 5 : Grid) mainKern = some g' ∧
        rd g' 2 2 = some (279009 / 31250) ∧ stencil mainKern (alloc_matrix 5 5) 2 2 = 9 ∧
        rd g' 2 2 ≠ some (stencil mainKern (alloc_matrix 5 5) 2 2)) ∧
    (HasDims 5 5 (alloc_matrix 5 5 : GridOf F64) ∧
      ∃ d', compute 5 5 (alloc_matrix 5 5 : GridOf F64) mainKern = some d' ∧
        rd d' 2 2 = some (F64.fin false 5026179313732059 (-49)) ∧
        cellValue (kern_factor mainKern) (alloc_matrix 5 5 : GridOf F64) 2 2 = some 9 ∧
        rd d' 2 2 ≠ cellValue (kern_factor mainKern) (alloc_matrix 5 5 : GridOf F64) 2 2) := by
  constructor
  · have hst : stencil mainKern (alloc_matrix 5 5) 2 2 = 9 := by
      simp [stencil, val, rd, alloc_matrix, List.replicate]
    have hrun : ∃ g', compute 5 5 (alloc_matrix 5 5 : Grid) mainKern = some g' ∧
        rd g' 2 2 = some (279009 / 31250) := by
      simp [compute, forRange, rowStep, cellStep, cellValue, mulAt, addO, rd, wr, kern_factor,
        weight, factor, mainKern, alloc_matrix, List.replicate]
      norm_num
    obtain ⟨g', hg', h22⟩ := hrun
    refine ⟨by decide, g', hg', h22, hst, ?_⟩
    rw [h22, hst]
    simp
    norm_num
  · exact ⟨by decide, _, rfl, by decide!, by decide!, by decide!⟩

/-- C8: in any arithmetic, on a grid of `R ≥ 3` rows of exactly `C ≥ 3` cells
each, `compute`, whose every row load, cell read, cell write and `kern_factor`
read is checked, returns a grid: no access is out of bounds. -/
theorem compute_index_safe {α : Type} [Arith α] (R C : Nat) (_hR : 3 ≤ R) (_hC : 3 ≤ C)
    (g : GridOf α) (hg : HasDims R C g) (k : Kernel) :
    ∃ g', compute R C g k = some g' ∧ HasDims R C g' := by
  obtain ⟨g', hrun, hd, _⟩ := compute_run hg k
  exact ⟨g', hrun, hd⟩

/-- The checks are live: with dimensions larger than the grid, `compute`
reads out of bounds and fails. -/
theorem compute_out_of_bounds :
    compute 5 5 (alloc_matrix 3 3 : GridOf F64) mainKern = none ∧
    compute 3 4 (alloc_matrix 3 3 : GridOf F64) mainKern = none := by
  constructor <;> decide!

/-- Witness of C8 on a 3x3 grid of doubles with the kernel of `main`. -/
theorem compute_index_safe_witness :
    HasDims 3 3 dgrid3 ∧ ∃ g', compute 3 3 dgrid3 mainKern = some g' ∧ HasDims 3 3 g' :=
  ⟨by decide, compute_index_safe 3 3 (by decide) (by decide) dgrid3 (by decide) mainKern⟩

/-- C9, counterexample: in double arithmetic, for `lowerKern`,
`kern_factor[3 * 0 + 2]` is the double `4611686018427388 * 2^-59` (about
`0.008`), the product for `k[2][0] = 2`; it is neither `k[0][2] / 250 = 0` nor
exactly `k[2][0] / 250`. -/
theorem kern_factor_not_row_major :
    (kern_factor lowerKern : List F64)[3 * 0 + 2]?
      = some (F64.fin false 4611686018427388 (-59)) ∧
    F64.toRat (F64.fin false 4611686018427388 (-59)) ≠ some ((lowerKern 0 2 : ℚ) / 250) ∧
    F64.toRat (F64.fin false 4611686018427388 (-59)) ≠ some ((lowerKern 2 0 : ℚ) / 250) ∧
    ¬ ∀ (k : Kernel) (r c : Fin 3),
        ((kern_factor k : List F64)[3 * (r : Nat) + c]?).bind F64.toRat
          = some ((k r c : ℚ) / 250) := by
  have h1 : (kern_factor lowerKern : List F64)[3 * 0 + 2]?
      = some (F64.fin false 4611686018427388 (-59)) := by decide!
  have h2 : F64.toRat (F64.fin false 4611686018427388 (-59))
      ≠ some ((lowerKern 0 2 : ℚ) / 250) := by
    simp [F64.toRat, lowerKern]
    norm_num
  have h3 : F64.toRat (F64.fin false 4611686018427388 (-59))
      ≠ some ((lowerKern 2 0 : ℚ) / 250) := by
    simp [F64.toRat, lowerKern]
    norm_num
  refine ⟨h1, h2, h3, fun hall => ?_⟩
  have h := hall lowerKern 0 2
  simp only [Fin.isValue, Fin.val_zero, Fin.val_two] at h
  rw [h1, Option.some_bind] at h
  exact h2 h

/-- C9, amended: for every kernel the table is laid out column by column,
`kern_factor[3 * c + r]` being the entry for `k[r][c]`, for all `r, c` in
`{0, 1, 2}`: in whatever arithmetic it is the product of the converted
`k[r][c]` and `factor = 1.0 / 250` (in double arithmetic a rounded product of a
rounded quotient), and in exact arithmetic it equals `k[r][c] / 250`. -/
theorem kern_factor_column_major {α : Type} [Arith α] (k : Kernel) (r c : Fin 3) :
    (kern_factor k : List α)[3 * (c : Nat) + r]?
      = some (Arith.mul (Arith.ofInt (k r c)) (Arith.div (Arith.ofInt 1) (Arith.ofInt 250))) ∧
    (kern_factor k : List ℚ)[3 * (c : Nat) + r]? = some ((k r c : ℚ) / 250) := by
  constructor
  · fin_cases r <;> fin_cases c <;> rfl
  · fin_cases r <;> fin_cases c <;> simp [kern_factor, exact_weight]

/-! ## `fill` -/

theorem fillCell_filled {α : Type} [Arith α] {R C : Nat} (rnd : Nat → Nat) {i j : Nat}
    (hi : i < R) (hj : j < C) (s : GridOf α × Nat) (h : FilledUpTo R C i j s) :
    ∃ s', fillCell rnd i j s = some s' ∧ FilledUpTo R C i (j + 1) s' := by
  obtain ⟨hd, hcells⟩ := h
  obtain ⟨arr', hw, hd', hrd⟩ := wr_spec hd hi hj (Arith.ofInt ((rnd s.2 % 100 : Nat) : ℤ))
  refine ⟨(arr', s.2 + 1), by simp only [fillCell, hw], hd', fun a b ha hb hab => ?_⟩
  simp only [hrd a b]
  by_cases hcur : a = i ∧ b = j
  · refine ⟨((rnd s.2 % 100 : Nat) : ℤ), by omega, by omega, ?_⟩
    rw [if_pos hcur]
  · rw [if_neg hcur]
    exact hcells a b ha hb (by omega)

theorem fillRow_filled {α : Type} [Arith α] {R C : Nat} (rnd : Nat → Nat) {i : Nat}
    (hi : i < R) (s : GridOf α × Nat) (h : FilledUpTo R C i 0 s) :
    ∃ s', forRange (fillCell rnd i) C 0 s = some s' ∧ FilledUpTo R C (i + 1) 0 s' := by
  obtain ⟨s', hs', hf⟩ :=
    forRange_inv (fun j t => FilledUpTo R C i j t) (fillCell rnd i) C 0
      (fun j _ hj t ht => fillCell_filled rnd hi (by omega) t ht) s h
  refine ⟨s', hs', hf.1, fun a b ha hb hab => hf.2 a b ha hb ?_⟩
  omega

/-- C10: in any arithmetic and for every stream of results of `rand()`,
`fill` on a grid of `R` rows of `C` cells returns a grid in which every one of
the `R * C` cells, borders included, holds the conversion `(double) v` of an
integer `v` with `0 ≤ v < 100`; in double arithmetic that conversion is exact
(`F64.toRat_ofInt_of_lt_hundred`). -/
theorem fill_range {α : Type} [Arith α] (R C : Nat) (g : GridOf α) (hg : HasDims R C g)
    (rnd : Nat → Nat) :
    ∃ g', fill R C g rnd = some g' ∧
      ∀ i j, i < R → j < C → ∃ v : ℤ, 0 ≤ v ∧ v < 100 ∧ rd g' i j = some (Arith.ofInt v) := by
  obtain ⟨s', hs', hf⟩ :=
    forRange_inv (fun i t => FilledUpTo R C i 0 t) (fun i t => forRange (fillCell rnd i) C 0 t)
      R 0 (fun i _ hi t ht => fillRow_filled rnd (by omega) t ht) (g, 0)
      ⟨hg, fun a b _ _ hab => by omega⟩
  refine ⟨s'.1, by simp [fill, hs'], fun i j hi hj => hf.2 i j hi hj ?_⟩
  omega

/-- Witness of C10 on the freshly allocated 2x3 grid of doubles with
`sampleRand`. -/
theorem fill_range_witness :
    HasDims 2 3 (alloc_matrix 2 3 : GridOf F64) ∧
    ∃ g', fill 2 3 (alloc_matrix 2 3 : GridOf F64) sampleRand = some g' ∧
      ∀ i j, i < 2 → j < 3 → ∃ v : ℤ, 0 ≤ v ∧ v < 100 ∧ rd g' i j = some (F64.ofInt v) :=
  ⟨by decide, fill_range 2 3 (alloc_matrix 2 3) (by decide) sampleRand⟩

/-- C12, counterexample. In double arithmetic, with `absorbKern`, whose
entries paired with already-written cells are zero, on the 3x3 grid with
`10^17` at `(1, 1)` and `(2, 2)` and `1` at `(1, 2)`, `compute` stores `9.0` at
`(1, 1)` where the sum over `r, c` of `k[r][c] * g[r][c]`, divided by 250, plus
9, is `10`. With `centreKern`, on the 3x4 grid with `10^308` at `(1, 1)`, cell
`(1, 1)` overflows to `+inf` and cell `(1, 2)` ends as NaN (`0.0 * inf`), where
the stencil over the original grid is `9`. -/
theorem pure_stencil_fails :
    HasDims 3 3 dabsorb ∧
    absorbKern 0 0 = 0 ∧ absorbKern 0 1 = 0 ∧ absorbKern 0 2 = 0 ∧ absorbKern 1 0 = 0 ∧
    compute 3 3 dabsorb absorbKern
      = some [[0, 0, 0], [0, 9, 1], [0, 0, 100000000000000000]] ∧
    F64.toRat (9 : F64) = some 9 ∧
    (∑ r : Fin 3, ∑ c : Fin 3, (absorbKern r c : ℚ) * valR dabsorb (1 + r - 1) (1 + c - 1)) / 250
      + 9 = 10 ∧
    compute 3 4 dhuge3x4 centreKern
      = some [[0, 0, 0, 0], [0, F64.inf false, F64.nan, 0], [0, 0, 0, 0]] ∧
    ¬ ∀ (R C : Nat) (g : GridOf F64) (k : Kernel), 3 ≤ R → 3 ≤ C → HasDims R C g →
        (∀ i j, i < R → j < C → ∃ x, rd g i j = some x ∧ x.isFinite = true) →
        k 0 0 = 0 → k 0 1 = 0 → k 0 2 = 0 → k 1 0 = 0 →
        ∃ g', compute R C g k = some g' ∧
          ∀ i j, 1 ≤ i → i ≤ R - 2 → 1 ≤ j → j ≤ C - 2 →
            (rd g' i j).bind F64.toRat
              = some ((∑ r : Fin 3, ∑ c : Fin 3,
                  (k r c : ℚ) * valR g (i + r - 1) (j + c - 1)) / 250 + 9) := by
  have hrun : compute 3 3 dabsorb absorbKern
      = some [[0, 0, 0], [0, 9, 1], [0, 0, 100000000000000000]] := by decide!
  have hlit : dabsorb = [[F64.fin false 0 0, F64.fin false 0 0, F64.fin false 0 0],
      [F64.fin false 0 0, F64.fin false 6250000000000000 4,
        F64.fin false 4503599627370496 (-52)],
      [F64.fin false 0 0, F64.fin false 0 0, F64.fin false 6250000000000000 4]] := by decide!
  have h9 : (9 : F64) = F64.fin false 5066549580791808 (-49) := by decide!
  have hnine : F64.toRat (9 : F64) = some 9 := by
    rw [h9]
    simp [F64.toRat]
    norm_num
  have hsum : (∑ r : Fin 3, ∑ c : Fin 3,
      (absorbKern r c : ℚ) * valR dabsorb (1 + r - 1) (1 + c - 1)) / 250 + 9 = 10 := by
    rw [hlit]
    simp [Fin.sum_univ_three, valR, rd, F64.toRat, absorbKern]
    norm_num
  refine ⟨by decide, rfl, rfl, rfl, rfl, hrun, hnine, hsum, by decide!, fun hall => ?_⟩
  obtain ⟨g', hg', h11⟩ := hall 3 3 dabsorb absorbKern (by decide) (by decide) (by decide)
    (fun i j hi hj => by
      interval_cases i <;> interval_cases j <;> exact ⟨_, rfl, by decide!⟩) rfl rfl rfl rfl
  rw [hrun] at hg'
  have hEq := Option.some.inj hg'
  subst hEq
  have h := h11 1 1 (by decide) (by decide) (by decide) (by decide)
  rw [hsum] at h
  have hrd : (rd ([[0, 0, 0], [0, 9, 1], [0, 0, 100000000000000000]] : GridOf F64) 1 1)
      = some 9 := rfl
  rw [hrd, Option.some_bind, hnine] at h
  norm_num at h

/-- C12, amended: for a kernel with `k[0][0] = k[0][1] = k[0][2] = k[1][0] = 0`
(no weight on the cells the sweep has already rewritten) and `R ≥ 3`, `C ≥ 3`,
`compute` is a pure stencil of the original grid. In exact arithmetic the
result at every interior cell `(i, j)` is the sum over `r, c` of
`k[r][c] * g[i+r-1][j+c-1]` on the original grid `g`, divided by 250, plus 9.
In double arithmetic, for a grid `d` of finite doubles whose result holds no
infinity and no NaN, the result at every interior cell is the assigned
expression of the source evaluated on the original grid `d`. -/
theorem compute_pure_stencil (R C : Nat) (hR : 3 ≤ R) (hC : 3 ≤ C) (g : Grid)
    (hg : HasDims R C g) (d : GridOf F64) (hd : HasDims R C d)
    (hfin : ∀ i j, i < R → j < C → ∃ x, rd d i j = some x ∧ x.isFinite = true) (k : Kernel)
    (h00 : k 0 0 = 0) (h01 : k 0 1 = 0) (h02 : k 0 2 = 0) (h10 : k 1 0 = 0) :
    (∃ g', compute R C g k = some g' ∧
      ∀ i j, 1 ≤ i → i ≤ R - 2 → 1 ≤ j → j ≤ C - 2 →
        rd g' i j = some
          ((∑ r : Fin 3, ∑ c : Fin 3, (k r c : ℚ) * val g (i + r - 1) (j + c - 1)) / 250 + 9)) ∧
    (∃ d', compute R C d k = some d' ∧
      ((∀ i j, i < R → j < C → ∃ x, rd d' i j = some x ∧ x.isFinite = true) →
        ∀ i j, 1 ≤ i → i ≤ R - 2 → 1 ≤ j → j ≤ C - 2 →
          rd d' i j = cellValue (kern_factor k) d i j)) := by
  constructor
  · obtain ⟨g', hrun, hd, _, hv⟩ := compute_causal hg k h00 h01 h02 h10
    refine ⟨g', hrun, fun i j hi1 hi2 hj1 hj2 => ?_⟩
    have ei : i + 2 - 1 = i + 1 := by omega
    have ej : j + 2 - 1 = j + 1 := by omega
    rw [rd_eq_some_val hd (by omega) (by omega), hv i j hi1 (by omega) hj1 (by omega)]
    simp [stencil, Fin.sum_univ_three, ei, ej]
    ring
  · obtain ⟨d', hrun, hd', _, hv⟩ := compute_spec hd k
    refine ⟨d', hrun, fun hfin' i j hi1 hi2 hj1 hj2 => ?_⟩
    have hf := F64.val_isFinite hd hfin
    have hf' := F64.val_isFinite hd' hfin'
    rw [rd_eq_some_val hd' (by omega) (by omega),
      cellValue_models (models_val hd) k (by omega) (by omega),
      hv i j hi1 (by omega) hj1 (by omega)]
    congr 1
    unfold cellValF
    exact F64.stencil9_same k _ _ _ _ _ (Or.inr ⟨h00, hf' _ _, hf _ _⟩)
      (Or.inr ⟨h10, hf' _ _, hf _ _⟩) (Or.inr ⟨h01, hf' _ _, hf _ _⟩)
      (Or.inr ⟨h02, hf' _ _, hf _ _⟩)

/-- Witness of the amended C12 on `spikeGrid` and `dspike` with `lowerKern`. -/
theorem compute_pure_stencil_witness :
    HasDims 5 5 spikeGrid ∧ HasDims 5 5 dspike ∧
    (∀ i j, i < 5 → j < 5 → ∃ x, rd dspike i j = some x ∧ x.isFinite = true) ∧
    lowerKern 0 0 = 0 ∧ lowerKern 0 1 = 0 ∧ lowerKern 0 2 = 0 ∧ lowerKern 1 0 = 0 ∧
    (∃ g', compute 5 5 spikeGrid lowerKern = some g' ∧
      ∀ i j, 1 ≤ i → i ≤ 5 - 2 → 1 ≤ j → j ≤ 5 - 2 →
        rd g' i j = some
          ((∑ r : Fin 3, ∑ c : Fin 3,
            (lowerKern r c : ℚ) * val spikeGrid (i + r - 1) (j + c - 1)) / 250 + 9)) ∧
    (∃ d', compute 5 5 dspike lowerKern = some d' ∧
      ((∀ i j, i < 5 → j < 5 → ∃ x, rd d' i j = some x ∧ x.isFinite = true) →
        ∀ i j, 1 ≤ i → i ≤ 5 - 2 → 1 ≤ j → j ≤ 5 - 2 →
          rd d' i j = cellValue (kern_factor lowerKern) dspike i j)) :=
  have hfin : ∀ i j, i < 5 → j < 5 → ∃ x, rd dspike i j = some x ∧ x.isFinite = true :=
    fun i j hi hj => by
      interval_cases i <;> interval_cases j <;> exact ⟨_, rfl, by decide!⟩
  ⟨by decide, by decide, hfin, rfl, rfl, rfl, rfl,
    compute_pure_stencil 5 5 (by decide) (by decide) spikeGrid (by decide) dspike (by decide)
      hfin lowerKern rfl rfl rfl rfl⟩

/-- C13: in any arithmetic, for every kernel and two grids of `R ≥ 3` rows of
`C ≥ 3` cells that agree on rows `0 .. i + 1`, where `i ≤ R - 2`, the results
of `compute` agree on rows `0 .. i`. -/
theorem compute_downward_local {α : Type} [Arith α] (R C : Nat) (_hR : 3 ≤ R) (_hC : 3 ≤ C)
    (g1 g2 : GridOf α) (h1 : HasDims R C g1) (h2 : HasDims R C g2) (k : Kernel) (i : Nat)
    (_hi : i ≤ R - 2) (hagree : ∀ a b, a ≤ i + 1 → rd g1 a b = rd g2 a b) :
    ∃ g1' g2', compute R C g1 k = some g1' ∧ compute R C g2 k = some g2' ∧
      ∀ a b, a ≤ i → rd g1' a b = rd g2' a b := by
  obtain ⟨g1', hrun1, hd1, hfr1, hv1⟩ := compute_spec h1 k
  obtain ⟨g2', hrun2, hd2, hfr2, hv2⟩ := compute_spec h2 k
  have hin : ∀ a b, a ≤ i + 1 → val g1 a b = val g2 a b := by
    intro a b ha
    simp [val, hagree a b ha]
  have hrow : ∀ a, a ≤ i → ∀ b, val g1' a b = val g2' a b := by
    intro a
    induction a using Nat.strong_induction_on with
    | _ a iha =>
      intro ha b
      induction b using Nat.strong_induction_on with
      | _ b ihb =>
        by_cases hint : 1 ≤ a ∧ a + 1 < R ∧ 1 ≤ b ∧ b + 1 < C
        · obtain ⟨ha1, ha2, hb1, hb2⟩ := hint
          rw [hv1 a b ha1 ha2 hb1 hb2, hv2 a b ha1 ha2 hb1 hb2,
            iha (a - 1) (by omega) (by omega) (b - 1), iha (a - 1) (by omega) (by omega) b,
            iha (a - 1) (by omega) (by omega) (b + 1), ihb (b - 1) (by omega),
            hin (a + 1) (b - 1) (by omega), hin (a + 1) b (by omega),
            hin (a + 1) (b + 1) (by omega), hin a b (by omega), hin a (b + 1) (by omega)]
        · rw [hfr1 a b hint, hfr2 a b hint, hin a b (by omega)]
  exact ⟨g1', g2', hrun1, hrun2, fun a b ha => rd_eq_of_val_eq hd1 hd2 (hrow a ha b)⟩

/-- Witness of C13 on `dgrid4` and `dgrid4b`, grids of doubles that agree on
rows `0 .. 2`, with the kernel of `main` and `i = 1`. -/
theorem compute_downward_local_witness :
    HasDims 4 3 dgrid4 ∧ HasDims 4 3 dgrid4b ∧
    (∀ a b, a ≤ 1 + 1 → rd dgrid4 a b = rd dgrid4b a b) ∧
    ∃ g1' g2', compute 4 3 dgrid4 mainKern = some g1' ∧
      compute 4 3 dgrid4b mainKern = some g2' ∧
      ∀ a b, a ≤ 1 → rd g1' a b = rd g2' a b :=
  have hagree : ∀ a b, a ≤ 1 + 1 → rd dgrid4 a b = rd dgrid4b a b := fun a b ha => by
    interval_cases a <;> simp [rd, dgrid4, dgrid4b]
  ⟨by decide, by decide, hagree,
    compute_downward_local 4 3 (by decide) (by decide) dgrid4 dgrid4b (by decide) (by decide)
      mainKern 1 (by decide) hagree⟩

/-- C14, counterexample: with the all-zero kernel, on the 3x4 grid of doubles
that is `+0` except for `+inf` at the border cell `(0, 0)`, the interior cells
`(1, 1)` and `(1, 2)` end as NaN, not `9`: `0.0 * inf` is NaN, and the NaN
stored at `(1, 1)` is read again for `(1, 2)`. -/
theorem zero_kernel_not_nine :
    HasDims 3 4 dinf3x4 ∧
    compute 3 4 dinf3x4 zeroKern
      = some [[F64.inf false, 0, 0, 0], [0, F64.nan, F64.nan, 0], [0, 0, 0, 0]] ∧
    F64.nan ≠ (9 : F64) ∧
    ¬ ∀ (R C : Nat) (g : GridOf F64), 3 ≤ R → 3 ≤ C → HasDims R C g →
        ∃ g', compute R C g zeroKern = some g' ∧
          (∀ i j, 1 ≤ i → i ≤ R - 2 → 1 ≤ j → j ≤ C - 2 → rd g' i j = some 9) ∧
          (∀ i j, ¬ (1 ≤ i ∧ i ≤ R - 2 ∧ 1 ≤ j ∧ j ≤ C - 2) → rd g' i j = rd g i j) := by
  have hrun : compute 3 4 dinf3x4 zeroKern
      = some [[F64.inf false, 0, 0, 0], [0, F64.nan, F64.nan, 0], [0, 0, 0, 0]] := by decide!
  refine ⟨by decide, hrun, by decide!, fun hall => ?_⟩
  obtain ⟨g', hg', hnine, _⟩ := hall 3 4 dinf3x4 (by decide) (by decide) (by decide)
  rw [hrun] at hg'
  have hEq := Option.some.inj hg'
  subst hEq
  have h11 := hnine 1 1 (by decide) (by decide) (by decide) (by decide)
  revert h11
  decide!

/-- C14, amended: in double arithmetic, for the all-zero kernel and a grid of
`R ≥ 3` rows of `C ≥ 3` cells all of which are finite (no infinity, no NaN),
every interior cell of the result of `compute` is exactly `9.0` and every cell
outside the interior, so every border cell, reads as before. -/
theorem compute_zero_kernel (R C : Nat) (hR : 3 ≤ R) (hC : 3 ≤ C) (g : GridOf F64)
    (hg : HasDims R C g)
    (hfin : ∀ i j, i < R → j < C → ∃ x, rd g i j = some x ∧ x.isFinite = true) :
    ∃ g', compute R C g zeroKern = some g' ∧
      (∀ i j, 1 ≤ i → i ≤ R - 2 → 1 ≤ j → j ≤ C - 2 → rd g' i j = some 9) ∧
      (∀ i j, ¬ (1 ≤ i ∧ i ≤ R - 2 ∧ 1 ≤ j ∧ j ≤ C - 2) → rd g' i j = rd g i j) := by
  obtain ⟨g', hrun, hd, hfr, hv⟩ := compute_spec hg zeroKern
  have hin : ∀ a b, (val g a b).isFinite = true := by
    intro a b
    by_cases hab : a < R ∧ b < C
    · obtain ⟨x, hx, hxf⟩ := hfin a b hab.1 hab.2
      simpa [val, hx] using hxf
    · rw [val_eq_zero_of_dims hg (by omega)]
      exact F64.zero_isFinite
  have hcell : ∀ a, ∀ b, (val g' a b).isFinite = true ∧
      (1 ≤ a ∧ a + 1 < R ∧ 1 ≤ b ∧ b + 1 < C → val g' a b = 9) := by
    intro a
    induction a using Nat.strong_induction_on with
    | _ a iha =>
      intro b
      induction b using Nat.strong_induction_on with
      | _ b ihb =>
        by_cases hint : 1 ≤ a ∧ a + 1 < R ∧ 1 ≤ b ∧ b + 1 < C
        · obtain ⟨ha1, ha2, hb1, hb2⟩ := hint
          have h9 : val g' a b = 9 := by
            rw [hv a b ha1 ha2 hb1 hb2]
            exact F64.stencil9_zeroKern (iha (a - 1) (by omega) (b - 1)).1
              (ihb (b - 1) (by omega)).1 (hin _ _) (iha (a - 1) (by omega) b).1 (hin _ _)
              (hin _ _) (iha (a - 1) (by omega) (b + 1)).1 (hin _ _) (hin _ _)
          exact ⟨by rw [h9]; exact F64.nine_isFinite, fun _ => h9⟩
        · refine ⟨?_, fun h => absurd h hint⟩
          rw [hfr a b hint]
          exact hin a b
  refine ⟨g', hrun, fun i j hi1 hi2 hj1 hj2 => ?_, fun i j hij => ?_⟩
  · rw [rd_eq_some_val hd (by omega) (by omega),
      (hcell i j).2 ⟨hi1, by omega, hj1, by omega⟩]
  · exact compute_rd_frame hg hd hfr i j (by omega)

/-- Witness of the amended C14 on `dgrid4`. -/
theorem compute_zero_kernel_witness :
    HasDims 4 3 dgrid4 ∧
    (∀ i j, i < 4 → j < 3 → ∃ x, rd dgrid4 i j = some x ∧ x.isFinite = true) ∧
    ∃ g', compute 4 3 dgrid4 zeroKern = some g' ∧
      (∀ i j, 1 ≤ i → i ≤ 4 - 2 → 1 ≤ j → j ≤ 3 - 2 → rd g' i j = some 9) ∧
      (∀ i j, ¬ (1 ≤ i ∧ i ≤ 4 - 2 ∧ 1 ≤ j ∧ j ≤ 3 - 2) → rd g' i j = rd dgrid4 i j) :=
  have hfin : ∀ i j, i < 4 → j < 3 → ∃ x, rd dgrid4 i j = some x ∧ x.isFinite = true :=
    fun i j hi hj => by
      interval_cases i <;> interval_cases j <;> exact ⟨_, rfl, by decide!⟩
  ⟨by decide, hfin, compute_zero_kernel 4 3 (by decide) (by decide) dgrid4 (by decide) hfin⟩

/-! ## Degenerate dimensions -/

theorem forRange_tick {σ : Type} (body : Nat → σ → Option σ) (n : Nat) :
    ∀ (i : Nat) (s : σ) (c : Nat),
      forRange (tick body) n i (s, c) = (forRange body n i s).map (fun s' => (s', c + n)) := by
  induction n with
  | zero => intro i s c; rfl
  | succ n ih =>
    intro i s c
    cases hb : body i s with
    | none => simp [forRange, tick, hb]
    | some s' =>
      simp only [forRange, tick, hb]
      rw [ih (i + 1) s' (c + 1)]
      have e : c + 1 + n = c + (n + 1) := by omega
      rw [e]

theorem rowStepTicks_eq {α : Type} [Arith α] (kf : List α) (C i : Nat) (g : GridOf α)
    (c : Nat) :
    rowStepTicks kf C i (g, c) = (rowStep kf C i g).map (fun g' => (g', c + (C - 1 - 1))) := by
  unfold rowStepTicks rowStep
  cases g[i - 1]? <;> cases g[i]? <;> cases g[i + 1]? <;> simp [forRange_tick]

theorem forRange_rowStepTicks {α : Type} [Arith α] (kf : List α) (C : Nat) (n : Nat) :
    ∀ (i : Nat) (g : GridOf α) (c m : Nat),
      forRange (tick (rowStepTicks kf C)) n i ((g, c), m)
        = (forRange (rowStep kf C) n i g).map
            (fun g' => ((g', c + n * (C - 1 - 1)), m + n)) := by
  induction n with
  | zero => intro i g c m; simp [forRange]
  | succ n ih =>
    intro i g c m
    cases hb : rowStep kf C i g with
    | none => simp [forRange, tick, rowStepTicks_eq, hb]
    | some g' =>
      simp only [forRange, tick, rowStepTicks_eq, hb, Option.map_some']
      rw [ih (i + 1) g' (c + (C - 1 - 1)) (m + 1)]
      have e1 : c + (C - 1 - 1) + n * (C - 1 - 1) = c + (n + 1) * (C - 1 - 1) := by ring
      have e2 : m + 1 + n = m + (n + 1) := by omega
      rw [e1, e2]

/-- Erasing the ghost counters of `computeTicks` gives `compute`; the counters
are the numbers of iterations of the two loops. -/
theorem computeTicks_eq {α : Type} [Arith α] (R C : Nat) (g : GridOf α) (kern : Kernel) :
    computeTicks R C g kern
      = (compute R C g kern).map (fun g' => ((g', (R - 1 - 1) * (C - 1 - 1)), R - 1 - 1)) := by
  unfold computeTicks compute
  rw [forRange_rowStepTicks]
  simp

theorem compute_degenerate {α : Type} [Arith α] {R C : Nat} {g : GridOf α}
    (hg : HasDims R C g) (kern : Kernel) (h : R < 3 ∨ C < 3) : compute R C g kern = some g := by
  by_cases hR : R < 3
  · have e : R - 1 - 1 = 0 := by omega
    simp [compute, e, forRange]
  · have e : C - 1 - 1 = 0 := by omega
    obtain ⟨s', hs', hP⟩ :=
      forRange_inv (fun _ s => s = g) (rowStep (kern_factor kern) C) (R - 1 - 1) 1
        (fun i hi1 hi2 s hs => by
          subst hs
          have h0 : i - 1 < s.length := by rw [hg.1]; omega
          have h1 : i < s.length := by rw [hg.1]; omega
          have h2 : i + 1 < s.length := by rw [hg.1]; omega
          refine ⟨s, ?_, rfl⟩
          simp [rowStep, List.getElem?_eq_getElem h0, List.getElem?_eq_getElem h1,
            List.getElem?_eq_getElem h2, e, forRange]) g rfl
    rw [compute, hs', hP]

/-- C15, counterexample: with `R = 3` rows and `C = 2 < 3` columns the outer
loop body is executed once, loading the three row pointers, before the inner
loop finds nothing to do. -/
theorem degenerate_outer_body_runs :
    HasDims 3 2 grid3x2 ∧ computeTicks 3 2 grid3x2 mainKern = some ((grid3x2, 0), 1) ∧
    ¬ ∀ (R C : Nat) (g : Grid) (k : Kernel), HasDims R C g → R < 3 ∨ C < 3 →
        computeTicks R C g k = some ((g, 0), 0) := by
  have hrun : computeTicks 3 2 grid3x2 mainKern = some ((grid3x2, 0), 1) := by
    simp [computeTicks, forRange, tick, rowStepTicks, grid3x2]
  refine ⟨by decide, hrun, fun hall => ?_⟩
  have h := hall 3 2 grid3x2 mainKern (by decide) (Or.inr (by decide))
  rw [hrun] at h
  simp at h

/-- C15, amended: in any arithmetic, when `R < 3` or `C < 3`, on a grid of `R`
rows of `C` cells and for every kernel, the inner loop body, the only place
where a grid cell is read or written, is never executed, the outer loop body
is executed `R - 2` times (never when `R < 3`), and `compute` returns the grid
unchanged. -/
theorem compute_degenerate_dims {α : Type} [Arith α] (R C : Nat) (g : GridOf α)
    (hg : HasDims R C g) (k : Kernel) (h : R < 3 ∨ C < 3) :
    computeTicks R C g k = some ((g, 0), R - 2) ∧ compute R C g k = some g := by
  have hrun := compute_degenerate hg k h
  refine ⟨?_, hrun⟩
  have e : (R - 1 - 1) * (C - 1 - 1) = 0 := by
    rcases h with h | h
    · have : R - 1 - 1 = 0 := by omega
      simp [this]
    · have : C - 1 - 1 = 0 := by omega
      simp [this]
  have e2 : R - 1 - 1 = R - 2 := by omega
  rw [computeTicks_eq, hrun, Option.map_some', e, e2]

/-- Witness of the amended C15 on `grid3x2` with the kernel of `main`. -/
theorem compute_degenerate_dims_witness :
    HasDims 3 2 grid3x2 ∧ (3 < 3 ∨ 2 < 3) ∧
    computeTicks 3 2 grid3x2 mainKern = some ((grid3x2, 0), 3 - 2) ∧
    compute 3 2 grid3x2 mainKern = some grid3x2 :=
  ⟨by decide, Or.inr (by decide),
    compute_degenerate_dims 3 2 grid3x2 (by decide) mainKern (Or.inr (by decide))⟩

end Conv
